import Mathlib

/-!
semonlib: the EnergyMonitor sampling and calculation engine

A shallow embedding of `src/firmware/semonlib.cpp` and `semonlib.h`.

Conventions of the embedding.

* Floating-point fields are values of an ordered field `α` (exact arithmetic, no
  rounding and no overflow).  A float that may have become non-finite, which in this
  code can only happen in the post-loop calculations, is an `Option α`: `some x` is the
  finite value `x`, `none` is a non-finite value (an infinity or a NaN).
* `sqrt` of the C library is a parameter `sqrt : α → α`; it is only ever applied to
  a non-negative finite argument, `sqrt` of a negative float being a NaN.
* `analogRead` and `millis` are answered by a `World`: the value of the k-th call of
  each.  A `Cursor` counts the calls made so far.  `delayMicroseconds` changes nothing
  that the program can observe except through later `millis` calls, which the
  `World` answers, so it has no effect of its own here.
* `unsigned long` and `unsigned int` are 32 bits wide on the target; the difference
  `millis() - start` is taken modulo `2^32`, and a `timeout` argument is a natural
  number below `2^32`.  Raw readings are the values `analogRead` returns, `0..4095` on
  the target.
* The `int` counters `numberOfSamples` and `crossCount` are unbounded (`Nat`, `Int`):
  their overflow is undefined behaviour in the source.
* `while` loops take a fuel argument and return `none` when the fuel runs out.
-/

set_option linter.unusedSectionVars false
set_option linter.unusedVariables false

namespace Semonlib

/-- The external collaborators: the value returned by the k-th `analogRead` call,
which may depend on the pin, and by the k-th `millis` call. -/
structure World where
  analogRead : Nat → Int → Nat
  millis : Nat → Nat

/-- How many `analogRead` and `millis` calls have been made so far. -/
structure Cursor where
  reads : Nat
  ticks : Nat
deriving DecidableEq, Repr

/-- The fields of `class EnergyMonitor` (semonlib.h).  A `char` of the waveform arrays
is a byte `0..255` (plain `char` is unsigned on the ARM target); `none` is the
indeterminate content left by an out-of-range float to `char` conversion. -/
structure EnergyMonitor (α : Type) where
  realPower : Option α
  apparentPower : Option α
  powerFactor : Option α
  Vrms : Option α
  Irms : Option α
  numberOfSamples : Nat
  Vwaveform : Fin 128 → Option Nat
  Iwaveform : Fin 128 → Option Nat
  inPinV : Int
  inPinI : Int
  VCAL : α
  ICAL : α
  PHASECAL : α
  lastSampleV : Nat
  sampleV : Nat
  lastSampleI : Nat
  sampleI : Nat
  lastFilteredV : α
  filteredV : α
  lastFilteredI : α
  filteredI : α
  phaseShiftedV : α
  sqV : α
  sumV : α
  sqI : α
  sumI : α
  instP : α
  sumP : α
  startV : Nat
  lastVCross : Bool
  checkVCross : Bool
  crossCount : Int

/-- The five public result fields of an `EnergyMonitor`. -/
structure Result (α : Type) where
  Vrms : Option α
  Irms : Option α
  realPower : Option α
  apparentPower : Option α
  powerFactor : Option α
deriving DecidableEq

section Defs

variable {α : Type} [LinearOrderedField α] [FloorRing α]

/-- The value of the k-th `millis()` call as a 32-bit `unsigned long`. -/
def millisAt (w : World) (k : Nat) : Nat := w.millis k % 4294967296

/-- The unsigned 32-bit difference `now - start`. -/
def elapsed (now start : Nat) : Nat := (now + 4294967296 - start % 4294967296) % 4294967296

/-- The conversion `char(x)` of a float: truncation toward zero when the truncated
value is a byte, indeterminate otherwise. -/
def toChar (x : α) : Option Nat :=
  if -1 < x ∧ x < 256 then (if x < 0 then some 0 else some (Int.toNat ⌊x⌋)) else none

/-- The assignment `a[i % 128] = v` on a 128-element array. -/
def writeSlot (a : Fin 128 → Option Nat) (i : Nat) (v : Option Nat) : Fin 128 → Option Nat :=
  Function.update a ⟨i % 128, Nat.mod_lt i (by decide)⟩ v

/-- The float quotient `x / n` of a finite float by an `int` converted to float:
non-finite when `n` is zero. -/
def divCount (x : α) (n : Int) : Option α :=
  if n = 0 then none else some (x / (n : α))

/-- The float `sqrt`: NaN on a negative argument, non-finite on a non-finite one. -/
def fsqrt (sqrt : α → α) (x : Option α) : Option α :=
  match x with
  | some v => if v < 0 then none else some (sqrt v)
  | none => none

/-- The float product: non-finite as soon as a factor is. -/
def fmul (x y : Option α) : Option α :=
  match x, y with
  | some a, some b => some (a * b)
  | _, _ => none

/-- The float quotient `x / y`: non-finite when the divisor is zero or an operand is
non-finite.  (A non-finite divisor under a finite dividend is always a NaN in this
program, see `calibrate_nan_divisor`.) -/
def fdiv (x y : Option α) : Option α :=
  match x, y with
  | some a, some b => if b = 0 then none else some (a / b)
  | _, _ => none

/-- The DC-offset filter expression `0.996*(lastFiltered+sample-lastSample)`. -/
def highPass (lastFiltered : α) (sample lastSample : Nat) : α :=
  0.996 * (lastFiltered + (sample : α) - (lastSample : α))

/-- The assignments at the top of `calcVI` (lines 75-77). -/
def resetCounters (s : EnergyMonitor α) : EnergyMonitor α :=
  { s with crossCount := 0, numberOfSamples := 0 }

/-- The first `while` loop of `calcVI` (lines 87-92): wait for a raw voltage reading
close to mid-scale, or for the timeout. -/
def seekNearZero (w : World) (start timeout : Nat) :
    Nat → Cursor → EnergyMonitor α → Option (Cursor × EnergyMonitor α)
  | 0, _, _ => none
  | fuel + 1, c, s =>
    let startV := w.analogRead c.reads s.inPinV
    let near : Bool := decide (startV < 2078 ∧ startV > 2018)
    let now := millisAt w c.ticks
    let late : Bool := decide (elapsed now start > timeout)
    let c1 : Cursor := { reads := c.reads + 1, ticks := c.ticks + 1 }
    let s1 : EnergyMonitor α := { s with startV := startV }
    if near || late then some (c1, s1) else seekNearZero w start timeout fuel c1 s1

/-- One pass through the body of the second `while` loop of `calcVI`, up to and
including the two filter updates (lines 96-107). -/
def edgeBody (w : World) (c : Cursor) (s : EnergyMonitor α) : Cursor × EnergyMonitor α :=
  let sV := w.analogRead c.reads s.inPinV
  let sI := w.analogRead (c.reads + 1) s.inPinI
  ({ c with reads := c.reads + 2 },
   { s with
     lastSampleV := s.sampleV
     lastSampleI := s.sampleI
     lastFilteredV := s.filteredV
     lastFilteredI := s.filteredI
     sampleV := sV
     sampleI := sI
     filteredV := highPass s.filteredV sV s.sampleV
     filteredI := highPass s.filteredI sI s.sampleI })

/-- The second `while` loop of `calcVI` (lines 95-110): update the filters until the
filtered voltage goes from negative to positive. -/
def awaitRisingEdge (w : World) :
    Nat → Cursor → EnergyMonitor α → Option (Cursor × EnergyMonitor α)
  | 0, _, _ => none
  | fuel + 1, c, s =>
    let r := edgeBody w c s
    if 0 < r.2.filteredV ∧ r.2.lastFilteredV < 0 then some r
    else awaitRisingEdge w fuel r.1 r.2

/-- The body of the main measurement loop of `calcVI` (lines 121-179). -/
def mainBody (w : World) (c : Cursor) (s : EnergyMonitor α) : Cursor × EnergyMonitor α :=
  let n := s.numberOfSamples + 1
  let sV := w.analogRead c.reads s.inPinV
  let sI := w.analogRead (c.reads + 1) s.inPinI
  let fV := highPass s.filteredV sV s.sampleV
  let fI := highPass s.filteredI sI s.sampleI
  let sqV := fV * fV
  let sqI := fI * fI
  let psV := s.filteredV + s.PHASECAL * (fV - s.filteredV)
  let instP := psV * fI
  ({ c with reads := c.reads + 2 },
   { s with
     numberOfSamples := n
     lastSampleV := s.sampleV
     lastSampleI := s.sampleI
     lastFilteredV := s.filteredV
     lastFilteredI := s.filteredI
     sampleV := sV
     sampleI := sI
     filteredV := fV
     filteredI := fI
     Vwaveform := writeSlot s.Vwaveform n (toChar ((fV + 2048) / 16))
     Iwaveform := writeSlot s.Iwaveform n (toChar ((fI + 1024) / 8))
     sqV := sqV
     sumV := s.sumV + sqV
     sqI := sqI
     sumI := s.sumI + sqI
     phaseShiftedV := psV
     instP := instP
     sumP := s.sumP + instP
     crossCount := if 0 < fV ∧ s.filteredV < 0 then s.crossCount + 1 else s.crossCount })

/-- The main measurement loop of `calcVI` (lines 119-180).  The condition is evaluated
left to right: `millis()` is called only when `crossCount < crossings`. -/
def mainLoop (w : World) (crossings : Int) (start timeout : Nat) :
    Nat → Cursor → EnergyMonitor α → Option (Cursor × EnergyMonitor α)
  | 0, _, _ => none
  | fuel + 1, c, s =>
    if s.crossCount < crossings then
      let c1 : Cursor := { c with ticks := c.ticks + 1 }
      if elapsed (millisAt w c.ticks) start < timeout then
        let r := mainBody w c1 s
        mainLoop w crossings start timeout fuel r.1 r.2
      else some (c1, s)
    else some (c, s)

/-- The post-loop calculations of `calcVI` and the reset of the accumulators
(lines 191-205). -/
def calibrate (sqrt : α → α) (s : EnergyMonitor α) : EnergyMonitor α :=
  let V_RATIO : α := s.VCAL * ((3300 / 1000) / 4096)
  let Vrms := fmul (some V_RATIO) (fsqrt sqrt (divCount s.sumV s.numberOfSamples))
  let I_RATIO : α := s.ICAL * ((3300 / 1000) / 4096)
  let Irms := fmul (some I_RATIO) (fsqrt sqrt (divCount s.sumI s.numberOfSamples))
  let realPower := divCount ( V_RATIO * I_RATIO * s.sumP) s.numberOfSamples
  let apparentPower := fmul Vrms Irms
  let powerFactor := fdiv realPower apparentPower
  { s with
    Vrms := Vrms
    Irms := Irms
    realPower := realPower
    apparentPower := apparentPower
    powerFactor := powerFactor
    sumV := 0
    sumI := 0
    sumP := 0 }

/-- The two synchronizer loops of `calcVI` (lines 83-110), after the counter reset. -/
def synchronize (w : World) (timeout : Nat) (fuel : Nat) (c : Cursor)
    (s : EnergyMonitor α) : Option (Cursor × EnergyMonitor α) :=
  let start := millisAt w c.ticks
  let c0 : Cursor := { c with ticks := c.ticks + 1 }
  match seekNearZero w start timeout fuel c0 (resetCounters s) with
  | none => none
  | some (c1, s1) => awaitRisingEdge w fuel c1 s1

/-- `EnergyMonitor::calcVI(crossings, timeout)`; each loop may use up to `fuel`
iterations. -/
def calcVI (sqrt : α → α) (w : World) (crossings : Int) (timeout : Nat) (fuel : Nat)
    (c : Cursor) (s : EnergyMonitor α) : Option (Cursor × EnergyMonitor α) :=
  match synchronize w timeout fuel c s with
  | none => none
  | some (c2, s2) =>
    let start := millisAt w c2.ticks
    let c3 : Cursor := { c2 with ticks := c2.ticks + 1 }
    match mainLoop w crossings start timeout fuel c3 s2 with
    | none => none
    | some (c4, s4) => some (c4, calibrate sqrt s4)

/-- The body of the `for` loop of `calcIrms` (lines 220-230). -/
def irmsBody (w : World) (c : Cursor) (s : EnergyMonitor α) : Cursor × EnergyMonitor α :=
  let sI := w.analogRead c.reads s.inPinI
  let fI := highPass s.filteredI sI s.sampleI
  let sqI := fI * fI
  ({ c with reads := c.reads + 1 },
   { s with
     lastSampleI := s.sampleI
     sampleI := sI
     lastFilteredI := s.filteredI
     filteredI := fI
     sqI := sqI
     sumI := s.sumI + sqI })

/-- The `for` loop of `calcIrms`, `k` iterations. -/
def irmsLoop (w : World) : Nat → Cursor → EnergyMonitor α → Cursor × EnergyMonitor α
  | 0, c, s => (c, s)
  | k + 1, c, s =>
    let r := irmsBody w c s
    irmsLoop w k r.1 r.2

/-- `EnergyMonitor::calcIrms(NUMBER_OF_SAMPLES)`: the final state and the returned
value.  The loop `for (n = 0; n < NUMBER_OF_SAMPLES; n++)` runs
`NUMBER_OF_SAMPLES.toNat` times. -/
def calcIrms (sqrt : α → α) (w : World) (NUMBER_OF_SAMPLES : Int) (c : Cursor)
    (s : EnergyMonitor α) : (Cursor × EnergyMonitor α) × Option α :=
  let r := irmsLoop w NUMBER_OF_SAMPLES.toNat c s
  let I_RATIO : α := r.2.ICAL * ((3300 / 1000) / 4096)
  let Irms := fmul (some I_RATIO) (fsqrt sqrt (divCount r.2.sumI NUMBER_OF_SAMPLES))
  ((r.1, { r.2 with Irms := Irms, sumI := 0 }), Irms)

/-- `EnergyMonitor::voltage(_inPinV, _VCAL, _PHASECAL)` (lines 48-53). -/
def voltage (s : EnergyMonitor α) (pin : Int) (VCAL PHASECAL : α) : EnergyMonitor α :=
  { s with inPinV := pin, VCAL := VCAL, PHASECAL := PHASECAL }

/-- `EnergyMonitor::current(_inPinI, _ICAL)` (lines 55-59). -/
def current (s : EnergyMonitor α) (pin : Int) (ICAL : α) : EnergyMonitor α :=
  { s with inPinI := pin, ICAL := ICAL }

/-- One iteration of the main loop that is taken: the `millis()` call of the loop
condition, then the body. -/
def mainStep (w : World) (p : Cursor × EnergyMonitor α) : Cursor × EnergyMonitor α :=
  mainBody w { p.1 with ticks := p.1.ticks + 1 } p.2

/-- The cursor and state after `n` iterations of the main loop. -/
def mainIter (w : World) (n : Nat) (p : Cursor × EnergyMonitor α) : Cursor × EnergyMonitor α :=
  (mainStep w)^[n] p

/-- The Result of a cycle together with the public sample count. -/
def resultOf (s : EnergyMonitor α) : Result α × Nat :=
  ({ Vrms := s.Vrms, Irms := s.Irms, realPower := s.realPower,
     apparentPower := s.apparentPower, powerFactor := s.powerFactor }, s.numberOfSamples)

/-- The `World` answers the same from cursor `c` on as `w2` does from `c2` on. -/
def SameFuture (w : World) (c : Cursor) (w2 : World) (c2 : Cursor) : Prop :=
  (∀ k p, w.analogRead (c.reads + k) p = w2.analogRead (c2.reads + k) p) ∧
  (∀ k, w.millis (c.ticks + k) = w2.millis (c2.ticks + k))

/-- Two states have the same pins and calibration constants. -/
def SameCalibration (s t : EnergyMonitor α) : Prop :=
  s.inPinV = t.inPinV ∧ s.inPinI = t.inPinI ∧ s.VCAL = t.VCAL ∧ s.ICAL = t.ICAL ∧
  s.PHASECAL = t.PHASECAL

/-- Two states have the same current raw sample and filtered value on both channels:
the part of the FilterState that an operation reads. -/
def SameFilterState (s t : EnergyMonitor α) : Prop :=
  s.sampleV = t.sampleV ∧ s.sampleI = t.sampleI ∧ s.filteredV = t.filteredV ∧
  s.filteredI = t.filteredI

/-- Two states agree on everything a cycle reads before writing it: pins, calibration,
the read part of the FilterState and the three running sums. -/
def SameStart (s t : EnergyMonitor α) : Prop :=
  SameCalibration s t ∧ SameFilterState s t ∧ s.sumV = t.sumV ∧ s.sumI = t.sumI ∧
  s.sumP = t.sumP

/-- Two states agree as in `SameStart` and on the two counters. -/
def SameCore (s t : EnergyMonitor α) : Prop :=
  SameStart s t ∧ s.crossCount = t.crossCount ∧ s.numberOfSamples = t.numberOfSamples

/-- Two runs both fail to return, or both return and their outcomes are related. -/
def Lockstep {β : Type} (R : β → β → Prop) (a b : Option β) : Prop :=
  (a = none ∧ b = none) ∨ ∃ x y, a = some x ∧ b = some y ∧ R x y

/-- A statically allocated `EnergyMonitor` before configuration: every field zero. -/
def zeroed : EnergyMonitor α :=
  { realPower := some 0, apparentPower := some 0, powerFactor := some 0, Vrms := some 0,
    Irms := some 0, numberOfSamples := 0, Vwaveform := fun _ => some 0,
    Iwaveform := fun _ => some 0, inPinV := 0, inPinI := 0, VCAL := 0, ICAL := 0,
    PHASECAL := 0, lastSampleV := 0, sampleV := 0, lastSampleI := 0, sampleI := 0,
    lastFilteredV := 0, filteredV := 0, lastFilteredI := 0, filteredI := 0,
    phaseShiftedV := 0, sqV := 0, sumV := 0, sqI := 0, sumI := 0, instP := 0, sumP := 0,
    startV := 0, lastVCross := false, checkVCross := false, crossCount := 0 }

/-- A zeroed object configured with `voltage(0, 250, 1)` and `current(1, 30)`. -/
def configured : EnergyMonitor α := current (voltage zeroed 0 250 1) 1 30

/-- A world in which every conversion returns mid-scale 2048, with any clock. -/
def flatWorld (clock : Nat → Nat) : World :=
  { analogRead := fun _ _ => 2048, millis := clock }

/-- A world that brings the filtered voltage of a `configured` object below zero and
back above it twice (voltage readings 2048, 2000, 0, 100, 0, 200, then 2048 for ever),
and reads 2048 on the current pin 1 throughout. -/
def edgeWorld : World :=
  { analogRead := fun k p =>
      if p = 1 then 2048 else [2048, 2000, 0, 0, 0, 100, 0, 0, 0, 200].getD k 2048,
    millis := fun k => k }

/-- A world with a frozen clock whose conversions repeat with period 9: one mid-scale
reading, then four voltage and current pairs alternating between 1800 and 2299. -/
def steadyWorld : World :=
  { analogRead := fun k _ =>
      if k % 9 = 0 then 2048
      else if k % 9 = 1 ∨ k % 9 = 2 ∨ k % 9 = 5 ∨ k % 9 = 6 then 1800 else 2299,
    millis := fun _ => 0 }

/-- A configured object whose two filters are in the periodic regime of `steadyWorld`:
last raw sample 2299 and filtered value 249 on both channels. -/
def steady : EnergyMonitor α :=
  { (configured : EnergyMonitor α) with
    sampleV := 2299, sampleI := 2299, filteredV := 249, filteredI := 249 }

/-- `calcVI` up to the exit of the main loop, before the post-loop calculations. -/
def accumulate (w : World) (crossings : Int) (timeout : Nat) (fuel : Nat) (c : Cursor)
    (s : EnergyMonitor α) : Option (Cursor × EnergyMonitor α) :=
  match synchronize w timeout fuel c s with
  | none => none
  | some (c2, s2) =>
    mainLoop w crossings (millisAt w c2.ticks) timeout fuel { c2 with ticks := c2.ticks + 1 } s2

/-- The world `w` with a constant offset `off p` added to every reading of pin `p`. -/
def offsetWorld (off : Int → Nat) (w : World) : World :=
  { analogRead := fun k p => w.analogRead k p + off p, millis := w.millis }

/-- The state `s` with the same offsets added to the stored last raw samples. -/
def offsetState (off : Int → Nat) (s : EnergyMonitor α) : EnergyMonitor α :=
  { s with sampleV := s.sampleV + off s.inPinV, sampleI := s.sampleI + off s.inPinI }

/-- State `t` is state `s` seen through the offsets `off`: the stored raw samples
differ by the offset of their pin, and the pins, calibration, filtered values, sums and
counters are the same. -/
def Shifted (off : Int → Nat) (s t : EnergyMonitor α) : Prop :=
  SameCalibration s t ∧ t.sampleV = s.sampleV + off s.inPinV ∧
  t.sampleI = s.sampleI + off s.inPinI ∧ s.filteredV = t.filteredV ∧
  s.filteredI = t.filteredI ∧ s.sumV = t.sumV ∧ s.sumI = t.sumI ∧ s.sumP = t.sumP ∧
  s.crossCount = t.crossCount ∧ s.numberOfSamples = t.numberOfSamples

/-- A world for which an offset of 40 on the voltage pin 0 moves the exit of the
seek-near-zero loop from the first reading (2048) to the second (2010 + 40); the current
pin 1 reads 2048 throughout. -/
def seekWorld : World :=
  { analogRead := fun k p =>
      if p = 1 then 2048
      else [2048, 2010, 2000, 0, 0, 100, 100, 0, 0, 200, 200].getD k 2048,
    millis := fun k => k }

/-- A rational stand-in for `sqrt`, exact on 0 and on 1. -/
def sqrtQ (x : ℚ) : ℚ := x

end Defs

section Lemmas

variable {α : Type} [LinearOrderedField α] [FloorRing α]

/-- The seek-near-zero loop changes `startV` and nothing else. -/
theorem seekNearZero_startV (w : World) (start timeout : Nat) :
    ∀ (fuel : Nat) (c : Cursor) (s : EnergyMonitor α) (c1 : Cursor) (s1 : EnergyMonitor α),
      seekNearZero w start timeout fuel c s = some (c1, s1) →
      s1 = { s with startV := s1.startV } := by
  intro fuel
  induction fuel with
  | zero => intro c s c1 s1 h; simp [seekNearZero] at h
  | succ k ih =>
    intro c s c1 s1 h
    simp only [seekNearZero] at h
    split at h
    · simp only [Option.some.injEq, Prod.mk.injEq] at h
      rw [← h.2]
    · have := ih _ _ _ _ h
      rw [this]

/-- A property kept by every pass of the rising-edge body holds when that loop exits. -/
theorem awaitRisingEdge_inv (w : World) (P : EnergyMonitor α → Prop)
    (hP : ∀ c s, P s → P (edgeBody w c s).2) :
    ∀ (fuel : Nat) (c : Cursor) (s : EnergyMonitor α) (c1 : Cursor) (s1 : EnergyMonitor α),
      awaitRisingEdge w fuel c s = some (c1, s1) → P s → P s1 := by
  intro fuel
  induction fuel with
  | zero => intro c s c1 s1 h; simp [awaitRisingEdge] at h
  | succ k ih =>
    intro c s c1 s1 h hs
    simp only [awaitRisingEdge] at h
    split at h
    · simp only [Option.some.injEq] at h
      have := hP c s hs
      rw [h] at this
      exact this
    · exact ih _ _ _ _ h (hP c s hs)

/-- A property kept by every taken iteration of the main loop holds when it exits. -/
theorem mainLoop_inv (w : World) (crossings : Int) (start timeout : Nat)
    (P : EnergyMonitor α → Prop)
    (hP : ∀ c s, s.crossCount < crossings → P s → P (mainBody w c s).2) :
    ∀ (fuel : Nat) (c : Cursor) (s : EnergyMonitor α) (c1 : Cursor) (s1 : EnergyMonitor α),
      mainLoop w crossings start timeout fuel c s = some (c1, s1) → P s → P s1 := by
  intro fuel
  induction fuel with
  | zero => intro c s c1 s1 h; simp [mainLoop] at h
  | succ k ih =>
    intro c s c1 s1 h hs
    simp only [mainLoop] at h
    split at h
    · rename_i hlt
      split at h
      · exact ih _ _ _ _ h (hP _ s hlt hs)
      · simp only [Option.some.injEq, Prod.mk.injEq] at h
        rw [← h.2]; exact hs
    · simp only [Option.some.injEq, Prod.mk.injEq] at h
      rw [← h.2]; exact hs

/-- A property of the state kept by the rising-edge body that holds after the counter
reset holds when the synchronizer is done. -/
theorem synchronize_inv (w : World) (timeout : Nat) (P : EnergyMonitor α → Prop)
    (hstart : ∀ (s : EnergyMonitor α) (v : Nat), P s → P { s with startV := v })
    (hP : ∀ c s, P s → P (edgeBody w c s).2)
    (fuel : Nat) (c : Cursor) (s : EnergyMonitor α) (c2 : Cursor) (s2 : EnergyMonitor α)
    (h : synchronize w timeout fuel c s = some (c2, s2)) (hs : P (resetCounters s)) :
    P s2 := by
  simp only [synchronize] at h
  split at h
  · simp at h
  · rename_i c1 s1 hseek
    have h1 := seekNearZero_startV w _ _ _ _ _ _ _ hseek
    have : P s1 := by rw [h1]; exact hstart _ _ hs
    exact awaitRisingEdge_inv w P hP _ _ _ _ _ h this

/-- The synchronizer leaves the sample count at the 0 it was reset to. -/
theorem synchronize_numberOfSamples (w : World) (timeout fuel : Nat) (c : Cursor)
    (s : EnergyMonitor α) (c2 : Cursor) (s2 : EnergyMonitor α)
    (h : synchronize w timeout fuel c s = some (c2, s2)) : s2.numberOfSamples = 0 :=
  synchronize_inv w timeout (fun t => t.numberOfSamples = 0) (fun _ _ h => h)
    (fun _ _ h => h) fuel c s c2 s2 h rfl

/-- The synchronizer leaves the crossing count at the 0 it was reset to. -/
theorem synchronize_crossCount (w : World) (timeout fuel : Nat) (c : Cursor)
    (s : EnergyMonitor α) (c2 : Cursor) (s2 : EnergyMonitor α)
    (h : synchronize w timeout fuel c s = some (c2, s2)) : s2.crossCount = 0 :=
  synchronize_inv w timeout (fun t => t.crossCount = 0) (fun _ _ h => h)
    (fun _ _ h => h) fuel c s c2 s2 h rfl

/-- A returning `calcVI` is a synchronizer run, a main-loop run and the post-loop
calculations on the loop-exit state. -/
theorem calcVI_eq_some (sqrt : α → α) (w : World) (crossings : Int) (timeout fuel : Nat)
    (c : Cursor) (s : EnergyMonitor α) (c4 : Cursor) (s5 : EnergyMonitor α)
    (h : calcVI sqrt w crossings timeout fuel c s = some (c4, s5)) :
    ∃ c2 s2 s4, synchronize w timeout fuel c s = some (c2, s2) ∧
      mainLoop w crossings (millisAt w c2.ticks) timeout fuel
        { c2 with ticks := c2.ticks + 1 } s2 = some (c4, s4) ∧
      s5 = calibrate sqrt s4 := by
  simp only [calcVI] at h
  split at h
  · simp at h
  · rename_i c2 s2 hsync
    split at h
    · simp at h
    · rename_i c4a s4 hmain
      simp only [Option.some.injEq, Prod.mk.injEq] at h
      exact ⟨c2, s2, s4, hsync, by rw [hmain, h.1], h.2.symm⟩

/-- With `timeout = 0` the main loop exits at once, leaving the state as it is. -/
theorem mainLoop_timeout_zero (w : World) (crossings : Int) (start fuel : Nat) (c : Cursor)
    (s : EnergyMonitor α) :
    ∃ c1, mainLoop w crossings start 0 (fuel + 1) c s = some (c1, s) := by
  simp only [mainLoop]
  split
  · refine ⟨{ c with ticks := c.ticks + 1 }, ?_⟩
    simp
  · exact ⟨c, rfl⟩

/-- The synchronizer needs at least one unit of fuel to return. -/
theorem synchronize_fuel_pos (w : World) (timeout fuel : Nat) (c : Cursor)
    (s : EnergyMonitor α) (r : Cursor × EnergyMonitor α)
    (h : synchronize w timeout fuel c s = some r) : ∃ k, fuel = k + 1 := by
  cases fuel with
  | zero => simp [synchronize, seekNearZero] at h
  | succ k => exact ⟨k, rfl⟩

/-- When the real power is finite and the apparent power is not, the apparent power is
a NaN that came from the square root of a negative mean. -/
theorem calibrate_nan_divisor (sqrt : α → α) (s : EnergyMonitor α) (r : α)
    (hr : (calibrate sqrt s).realPower = some r)
    (ha : (calibrate sqrt s).apparentPower = none) :
    s.sumV / (s.numberOfSamples : α) < 0 ∨ s.sumI / (s.numberOfSamples : α) < 0 := by
  simp only [calibrate, divCount, Int.cast_natCast] at hr ha
  by_cases hn : (s.numberOfSamples : Int) = 0
  · simp [hn] at hr
  · simp only [hn, if_false, fsqrt, fmul] at ha
    by_contra hcon
    push_neg at hcon
    simp [not_lt.mpr hcon.1, not_lt.mpr hcon.2] at ha

/-- The value of a field of a returned state, read off a decided equation. -/
theorem of_map_eq_some {β γ : Type} (o : Option β) (f : β → γ) (b : γ) (r : β)
    (h : o.map f = some b) (hr : o = some r) : f r = b := by
  rw [hr] at h
  simpa using h

/-- The pins and calibration constants at the exit of the main loop of a returning
cycle are those of the entry state. -/
theorem calcVI_calibration (w : World) (crossings : Int) (timeout fuel : Nat)
    (c : Cursor) (s : EnergyMonitor α) (c2 c4 : Cursor) (s2 s4 : EnergyMonitor α) (start : Nat)
    (hsync : synchronize w timeout fuel c s = some (c2, s2))
    (hmain : mainLoop w crossings start timeout fuel { c2 with ticks := c2.ticks + 1 } s2 =
      some (c4, s4)) :
    SameCalibration s s2 ∧ SameCalibration s s4 := by
  have h2 : SameCalibration s s2 :=
    synchronize_inv w timeout (fun t => SameCalibration s t) (fun _ _ h => h)
      (fun _ _ h => h) fuel c s c2 s2 hsync ⟨rfl, rfl, rfl, rfl, rfl⟩
  exact ⟨h2, mainLoop_inv w crossings start timeout (fun t => SameCalibration s t)
    (fun _ _ _ h => h) fuel _ s2 c4 s4 hmain h2⟩

/-- The sums of squares stay non-negative through a returning cycle's loops. -/
theorem calcVI_sums_nonneg (w : World) (crossings : Int) (timeout fuel : Nat)
    (c : Cursor) (s : EnergyMonitor α) (c2 c4 : Cursor) (s2 s4 : EnergyMonitor α) (start : Nat)
    (hsync : synchronize w timeout fuel c s = some (c2, s2))
    (hmain : mainLoop w crossings start timeout fuel { c2 with ticks := c2.ticks + 1 } s2 =
      some (c4, s4)) :
    (0 ≤ s.sumV → 0 ≤ s4.sumV) ∧ (0 ≤ s.sumI → 0 ≤ s4.sumI) := by
  constructor
  · intro h0
    have h2 : 0 ≤ s2.sumV :=
      synchronize_inv w timeout (fun t => 0 ≤ t.sumV) (fun _ _ h => h)
        (fun _ _ h => h) fuel c s c2 s2 hsync h0
    exact mainLoop_inv w crossings start timeout (fun t => 0 ≤ t.sumV)
      (fun _ t _ h => add_nonneg h (mul_self_nonneg _)) fuel _ s2 c4 s4 hmain h2
  · intro h0
    have h2 : 0 ≤ s2.sumI :=
      synchronize_inv w timeout (fun t => 0 ≤ t.sumI) (fun _ _ h => h)
        (fun _ _ h => h) fuel c s c2 s2 hsync h0
    exact mainLoop_inv w crossings start timeout (fun t => 0 ≤ t.sumI)
      (fun _ t _ h => add_nonneg h (mul_self_nonneg _)) fuel _ s2 c4 s4 hmain h2

/-- The exit state of the main loop is the state after some number of iterations. -/
theorem mainLoop_eq_mainIter (w : World) (crossings : Int) (start timeout : Nat) :
    ∀ (fuel : Nat) (c : Cursor) (s : EnergyMonitor α) (c1 : Cursor) (s1 : EnergyMonitor α),
      mainLoop w crossings start timeout fuel c s = some (c1, s1) →
      ∃ n, s1 = (mainIter w n (c, s)).2 := by
  intro fuel
  induction fuel with
  | zero => intro c s c1 s1 h; simp [mainLoop] at h
  | succ k ih =>
    intro c s c1 s1 h
    simp only [mainLoop] at h
    split at h
    · split at h
      · obtain ⟨n, hn⟩ := ih _ _ _ _ h
        refine ⟨n + 1, ?_⟩
        rw [hn]
        simp only [mainIter, Function.iterate_succ_apply]
        rfl
      · simp only [Option.some.injEq, Prod.mk.injEq] at h
        exact ⟨0, h.2.symm⟩
    · simp only [Option.some.injEq, Prod.mk.injEq] at h
      exact ⟨0, h.2.symm⟩

/-- One more iteration is a `mainStep` after the iterations so far. -/
theorem mainIter_succ (w : World) (n : Nat) (p : Cursor × EnergyMonitor α) :
    mainIter w (n + 1) p = mainStep w (mainIter w n p) := by
  simp only [mainIter, Function.iterate_succ_apply']

/-- Every iteration of the main loop adds one to the sample count. -/
theorem mainIter_numberOfSamples (w : World) (n : Nat) (p : Cursor × EnergyMonitor α) :
    (mainIter w n p).2.numberOfSamples = p.2.numberOfSamples + n := by
  induction n with
  | zero => rfl
  | succ k ih =>
    rw [mainIter_succ]
    show (mainIter w k p).2.numberOfSamples + 1 = _
    rw [ih]; rfl

/-- The voltage waveform array after one more iteration. -/
theorem mainIter_Vwaveform (w : World) (n : Nat) (p : Cursor × EnergyMonitor α) :
    (mainIter w (n + 1) p).2.Vwaveform =
      writeSlot (mainIter w n p).2.Vwaveform ((mainIter w n p).2.numberOfSamples + 1)
        (toChar (((mainIter w (n + 1) p).2.filteredV + 2048) / 16)) := by
  rw [mainIter_succ]; rfl

/-- The current waveform array after one more iteration. -/
theorem mainIter_Iwaveform (w : World) (n : Nat) (p : Cursor × EnergyMonitor α) :
    (mainIter w (n + 1) p).2.Iwaveform =
      writeSlot (mainIter w n p).2.Iwaveform ((mainIter w n p).2.numberOfSamples + 1)
        (toChar (((mainIter w (n + 1) p).2.filteredI + 1024) / 8)) := by
  rw [mainIter_succ]; rfl

/-- Reading the slot just written. -/
theorem writeSlot_same (a : Fin 128 → Option Nat) (i : Nat) (v : Option Nat)
    (h : i % 128 < 128) : writeSlot a i v ⟨i % 128, h⟩ = v := by
  simp [writeSlot]

/-- Reading another slot than the one just written. -/
theorem writeSlot_other (a : Fin 128 → Option Nat) (i : Nat) (v : Option Nat)
    (k : Fin 128) (h : k.val ≠ i % 128) : writeSlot a i v k = a k := by
  unfold writeSlot
  apply Function.update_noteq
  intro hk
  apply h
  rw [hk]

/-- After `n` iterations from a zero sample count, the slot `(j + 1) % 128` of either
array holds the compressed sample `j`, for each of the last 128 samples `j`. -/
theorem mainIter_last128 (w : World) (p : Cursor × EnergyMonitor α)
    (hp : p.2.numberOfSamples = 0) :
    ∀ (n j : Nat) (hj : (j + 1) % 128 < 128), j < n → n ≤ j + 128 →
      (mainIter w n p).2.Vwaveform ⟨(j + 1) % 128, hj⟩ =
          toChar (((mainIter w (j + 1) p).2.filteredV + 2048) / 16) ∧
        (mainIter w n p).2.Iwaveform ⟨(j + 1) % 128, hj⟩ =
          toChar (((mainIter w (j + 1) p).2.filteredI + 1024) / 8) := by
  intro n
  induction n with
  | zero => intro j hj h; omega
  | succ k ih =>
    intro j hj hlt hle
    have hk : (mainIter w k p).2.numberOfSamples = k := by
      rw [mainIter_numberOfSamples, hp]; omega
    rw [mainIter_Vwaveform, mainIter_Iwaveform, hk]
    by_cases hjk : j = k
    · subst hjk
      exact ⟨writeSlot_same _ _ _ hj, writeSlot_same _ _ _ hj⟩
    · have hne : (j + 1) % 128 ≠ (k + 1) % 128 := by omega
      rw [writeSlot_other _ _ _ _ hne, writeSlot_other _ _ _ _ hne]
      exact ih j hj (by omega) (by omega)

/-- Worlds that answer the same from two cursors still do after both have advanced by
the same number of calls. -/
theorem sameFuture_shift (w w2 : World) (c c2 : Cursor) (h : SameFuture w c w2 c2)
    (a b : Nat) :
    SameFuture w { reads := c.reads + a, ticks := c.ticks + b } w2
      { reads := c2.reads + a, ticks := c2.ticks + b } := by
  constructor
  · intro k p
    have := h.1 (a + k) p
    simpa [Nat.add_assoc] using this
  · intro k
    have := h.2 (b + k)
    simpa [Nat.add_assoc] using this

/-- The seek-near-zero loop runs in lockstep in two worlds with the same future from
states with the same voltage pin. -/
theorem seekNearZero_lockstep (w w2 : World) (start timeout : Nat) :
    ∀ (fuel : Nat) (c c2 : Cursor) (s t : EnergyMonitor α), SameFuture w c w2 c2 →
      s.inPinV = t.inPinV →
      Lockstep (fun r r2 => SameFuture w r.1 w2 r2.1 ∧
          ∃ v, r.2 = { s with startV := v } ∧ r2.2 = { t with startV := v })
        (seekNearZero w start timeout fuel c s) (seekNearZero w2 start timeout fuel c2 t) := by
  intro fuel
  induction fuel with
  | zero => intro c c2 s t _ _; exact Or.inl ⟨rfl, rfl⟩
  | succ k ih =>
    intro c c2 s t hw hpin
    have e1 : w.analogRead c.reads s.inPinV = w2.analogRead c2.reads t.inPinV := by
      have := hw.1 0 s.inPinV
      simpa [hpin] using this
    have e2 : millisAt w c.ticks = millisAt w2 c2.ticks := by
      have := hw.2 0
      simp only [millisAt]
      simpa using congrArg (fun x => x % 4294967296) this
    have hw1 := sameFuture_shift w w2 c c2 hw 1 1
    simp only [seekNearZero, e1, e2]
    split
    · exact Or.inr ⟨_, _, rfl, rfl, hw1, _, rfl, rfl⟩
    · rcases ih _ _ { s with startV := w2.analogRead c2.reads t.inPinV }
        { t with startV := w2.analogRead c2.reads t.inPinV } hw1 hpin with h | h
      · exact Or.inl h
      · obtain ⟨x, y, hx, hy, hxy, v, hv1, hv2⟩ := h
        exact Or.inr ⟨x, y, hx, hy, hxy, v, hv1, hv2⟩

/-- One pass of the rising-edge body keeps two runs related. -/
theorem edgeBody_lockstep (w w2 : World) (c c2 : Cursor) (s t : EnergyMonitor α)
    (hw : SameFuture w c w2 c2) (hst : SameCore s t) :
    SameFuture w (edgeBody w c s).1 w2 (edgeBody w2 c2 t).1 ∧
      SameCore (edgeBody w c s).2 (edgeBody w2 c2 t).2 ∧
      (edgeBody w c s).2.lastFilteredV = (edgeBody w2 c2 t).2.lastFilteredV := by
  obtain ⟨⟨⟨hpV, hpI, hVC, hIC, hPC⟩, ⟨hsV, hsI, hfV, hfI⟩, hSV, hSI, hSP⟩, hcc, hns⟩ := hst
  have e1 : w.analogRead c.reads s.inPinV = w2.analogRead c2.reads t.inPinV := by
    have := hw.1 0 s.inPinV
    simpa [hpV] using this
  have e2 : w.analogRead (c.reads + 1) s.inPinI = w2.analogRead (c2.reads + 1) t.inPinI := by
    have := hw.1 1 s.inPinI
    simpa [hpI] using this
  refine ⟨sameFuture_shift w w2 c c2 hw 2 0, ?_, hfV⟩
  simp only [edgeBody, SameCore, SameStart, SameCalibration, SameFilterState]
  rw [e1, e2, hsV, hsI, hfV, hfI]
  exact ⟨⟨⟨hpV, hpI, hVC, hIC, hPC⟩, ⟨rfl, rfl, rfl, rfl⟩, hSV, hSI, hSP⟩, hcc, hns⟩

/-- The rising-edge loop runs in lockstep from related states. -/
theorem awaitRisingEdge_lockstep (w w2 : World) :
    ∀ (fuel : Nat) (c c2 : Cursor) (s t : EnergyMonitor α), SameFuture w c w2 c2 →
      SameCore s t →
      Lockstep (fun r r2 => SameFuture w r.1 w2 r2.1 ∧ SameCore r.2 r2.2)
        (awaitRisingEdge w fuel c s) (awaitRisingEdge w2 fuel c2 t) := by
  intro fuel
  induction fuel with
  | zero => intro c c2 s t _ _; exact Or.inl ⟨rfl, rfl⟩
  | succ k ih =>
    intro c c2 s t hw hst
    obtain ⟨hw1, hst1, hlast⟩ := edgeBody_lockstep w w2 c c2 s t hw hst
    have hf : (edgeBody w c s).2.filteredV = (edgeBody w2 c2 t).2.filteredV := hst1.1.2.1.2.2.1
    simp only [awaitRisingEdge, hf, hlast]
    split
    · exact Or.inr ⟨_, _, rfl, rfl, hw1, hst1⟩
    · exact ih _ _ _ _ hw1 hst1

/-- One pass of the main-loop body keeps two runs related. -/
theorem mainBody_lockstep (w w2 : World) (c c2 : Cursor) (s t : EnergyMonitor α)
    (hw : SameFuture w c w2 c2) (hst : SameCore s t) :
    SameFuture w (mainBody w c s).1 w2 (mainBody w2 c2 t).1 ∧
      SameCore (mainBody w c s).2 (mainBody w2 c2 t).2 := by
  obtain ⟨⟨⟨hpV, hpI, hVC, hIC, hPC⟩, ⟨hsV, hsI, hfV, hfI⟩, hSV, hSI, hSP⟩, hcc, hns⟩ := hst
  have e1 : w.analogRead c.reads s.inPinV = w2.analogRead c2.reads t.inPinV := by
    have := hw.1 0 s.inPinV
    simpa [hpV] using this
  have e2 : w.analogRead (c.reads + 1) s.inPinI = w2.analogRead (c2.reads + 1) t.inPinI := by
    have := hw.1 1 s.inPinI
    simpa [hpI] using this
  refine ⟨sameFuture_shift w w2 c c2 hw 2 0, ?_⟩
  simp only [mainBody, SameCore, SameStart, SameCalibration, SameFilterState]
  rw [e1, e2, hsV, hsI, hfV, hfI, hSV, hSI, hSP, hcc, hns, hPC]
  exact ⟨⟨⟨hpV, hpI, hVC, hIC, rfl⟩, ⟨rfl, rfl, rfl, rfl⟩, rfl, rfl, rfl⟩, rfl, rfl⟩

/-- The main loop runs in lockstep from related states. -/
theorem mainLoop_lockstep (w w2 : World) (crossings : Int) (start timeout : Nat) :
    ∀ (fuel : Nat) (c c2 : Cursor) (s t : EnergyMonitor α), SameFuture w c w2 c2 →
      SameCore s t →
      Lockstep (fun r r2 => SameFuture w r.1 w2 r2.1 ∧ SameCore r.2 r2.2)
        (mainLoop w crossings start timeout fuel c s)
        (mainLoop w2 crossings start timeout fuel c2 t) := by
  intro fuel
  induction fuel with
  | zero => intro c c2 s t _ _; exact Or.inl ⟨rfl, rfl⟩
  | succ k ih =>
    intro c c2 s t hw hst
    have hcc : s.crossCount = t.crossCount := hst.2.1
    have e2 : millisAt w c.ticks = millisAt w2 c2.ticks := by
      have := hw.2 0
      simp only [millisAt]
      simpa using congrArg (fun x => x % 4294967296) this
    have hw1 := sameFuture_shift w w2 c c2 hw 0 1
    simp only [mainLoop, hcc, e2]
    split
    · split
      · obtain ⟨hw2, hst2⟩ := mainBody_lockstep w w2 _ _ s t hw1 hst
        exact ih _ _ _ _ hw2 hst2
      · exact Or.inr ⟨_, _, rfl, rfl, hw1, hst⟩
    · exact Or.inr ⟨_, _, rfl, rfl, hw, hst⟩

/-- The post-loop calculations give related states the same Result and leave them
related. -/
theorem calibrate_lockstep (sqrt : α → α) (s t : EnergyMonitor α) (hst : SameCore s t) :
    resultOf (calibrate sqrt s) = resultOf (calibrate sqrt t) ∧
      SameStart (calibrate sqrt s) (calibrate sqrt t) := by
  obtain ⟨⟨⟨hpV, hpI, hVC, hIC, hPC⟩, ⟨hsV, hsI, hfV, hfI⟩, hSV, hSI, hSP⟩, hcc, hns⟩ := hst
  refine ⟨?_, ⟨hpV, hpI, hVC, hIC, hPC⟩, ⟨hsV, hsI, hfV, hfI⟩, rfl, rfl, rfl⟩
  simp only [resultOf, calibrate]
  rw [hVC, hIC, hSV, hSI, hSP, hns]

/-- Two cycles that start from states agreeing on calibration, FilterState and sums, in
worlds with the same future, both fail to return or both return the same Result and
sample count. -/
theorem calcVI_lockstep (sqrt : α → α) (w w2 : World) (crossings : Int)
    (timeout fuel : Nat) (c c2 : Cursor) (s t : EnergyMonitor α)
    (hw : SameFuture w c w2 c2) (hst : SameStart s t) :
    Lockstep (fun r r2 => SameFuture w r.1 w2 r2.1 ∧ resultOf r.2 = resultOf r2.2 ∧
        SameStart r.2 r2.2)
      (calcVI sqrt w crossings timeout fuel c s) (calcVI sqrt w2 crossings timeout fuel c2 t) := by
  have e0 : millisAt w c.ticks = millisAt w2 c2.ticks := by
    have := hw.2 0
    simp only [millisAt]
    simpa using congrArg (fun x => x % 4294967296) this
  have hw0 : SameFuture w { c with ticks := c.ticks + 1 } w2 { c2 with ticks := c2.ticks + 1 } :=
    sameFuture_shift w w2 c c2 hw 0 1
  have hreset : SameCore (resetCounters s) (resetCounters t) := ⟨hst, rfl, rfl⟩
  simp only [calcVI, synchronize, e0]
  rcases seekNearZero_lockstep w w2 (millisAt w2 c2.ticks) timeout fuel _ _
    (resetCounters s) (resetCounters t) hw0 hst.1.1 with h | h
  · simp only [h.1, h.2]; exact Or.inl ⟨rfl, rfl⟩
  · obtain ⟨⟨c1, s1⟩, ⟨d1, t1⟩, hx, hy, hw1, v, hv1, hv2⟩ := h
    simp only [hx, hy]
    have hst1 : SameCore s1 t1 := by
      have a1 : s1 = _ := hv1
      have a2 : t1 = _ := hv2
      rw [a1, a2]; exact hreset
    rcases awaitRisingEdge_lockstep w w2 fuel c1 d1 s1 t1 hw1 hst1 with h | h
    · simp only [h.1, h.2]; exact Or.inl ⟨rfl, rfl⟩
    · obtain ⟨⟨c2a, s2⟩, ⟨d2, t2⟩, hx2, hy2, hw2, hst2⟩ := h
      simp only [hx2, hy2]
      have e2 : millisAt w c2a.ticks = millisAt w2 d2.ticks := by
        have := hw2.2 0
        simp only [millisAt]
        simpa using congrArg (fun x => x % 4294967296) this
      have hw3 : SameFuture w { c2a with ticks := c2a.ticks + 1 } w2
          { d2 with ticks := d2.ticks + 1 } := sameFuture_shift w w2 c2a d2 hw2 0 1
      rw [e2]
      rcases mainLoop_lockstep w w2 crossings (millisAt w2 d2.ticks) timeout fuel _ _ s2 t2
        hw3 hst2 with h | h
      · simp only [h.1, h.2]; exact Or.inl ⟨rfl, rfl⟩
      · obtain ⟨⟨c4, s4⟩, ⟨d4, t4⟩, hx4, hy4, hw4, hst4⟩ := h
        simp only [hx4, hy4]
        obtain ⟨hres, hss⟩ := calibrate_lockstep sqrt s4 t4 hst4
        exact Or.inr ⟨_, _, rfl, rfl, hw4, hres, hss⟩

/-- A returning cycle leaves the three running sums at zero. -/
theorem calcVI_sums_reset (sqrt : α → α) (w : World) (crossings : Int) (timeout fuel : Nat)
    (c : Cursor) (s : EnergyMonitor α) (c4 : Cursor) (s5 : EnergyMonitor α)
    (h : calcVI sqrt w crossings timeout fuel c s = some (c4, s5)) :
    s5.sumV = 0 ∧ s5.sumI = 0 ∧ s5.sumP = 0 := by
  obtain ⟨c2, s2, s4, -, -, rfl⟩ := calcVI_eq_some sqrt w crossings timeout fuel c s c4 s5 h
  exact ⟨rfl, rfl, rfl⟩

/-- A returning cycle leaves the pins and calibration constants as they were. -/
theorem calcVI_sameCalibration (sqrt : α → α) (w : World) (crossings : Int)
    (timeout fuel : Nat) (c : Cursor) (s : EnergyMonitor α) (c4 : Cursor)
    (s5 : EnergyMonitor α) (h : calcVI sqrt w crossings timeout fuel c s = some (c4, s5)) :
    SameCalibration s s5 := by
  obtain ⟨c2, s2, s4, hsync, hmain, rfl⟩ := calcVI_eq_some sqrt w crossings timeout fuel c s c4 s5 h
  exact (calcVI_calibration w crossings timeout fuel c s c2 c4 s2 s4 _ hsync hmain).2

/-- A world has the same future from a cursor as itself. -/
theorem sameFuture_refl (w : World) (c : Cursor) : SameFuture w c w c :=
  ⟨fun _ _ => rfl, fun _ => rfl⟩

/-- In a world that always reads 2048 the rising-edge loop never exits from a state
whose filtered voltage is not negative and whose last raw voltage is at most 2048. -/
theorem awaitRisingEdge_flat (clock : Nat → Nat) :
    ∀ (fuel : Nat) (c : Cursor) (s : EnergyMonitor α), 0 ≤ s.filteredV → s.sampleV ≤ 2048 →
      awaitRisingEdge (flatWorld clock) fuel c s = none := by
  intro fuel
  induction fuel with
  | zero => intro c s _ _; rfl
  | succ k ih =>
    intro c s hf hs
    have hcast : (s.sampleV : α) ≤ 2048 := by exact_mod_cast hs
    have hnew : 0 ≤ highPass s.filteredV 2048 s.sampleV := by
      unfold highPass
      have h1 : (0 : α) ≤ s.filteredV + ((2048 : Nat) : α) - (s.sampleV : α) := by
        push_cast; linarith
      have h2 : (0 : α) ≤ 0.996 := by norm_num
      exact mul_nonneg h2 h1
    simp only [awaitRisingEdge]
    have hlast : (edgeBody (flatWorld clock) c s).2.lastFilteredV = s.filteredV := rfl
    rw [if_neg (by rw [hlast]; exact fun h => absurd h.2 (not_lt.mpr hf))]
    apply ih
    · simpa [edgeBody, flatWorld] using hnew
    · simp [edgeBody, flatWorld]

/-- A property kept by every pass of the `calcIrms` loop body holds after the loop. -/
theorem irmsLoop_inv (w : World) (P : EnergyMonitor α → Prop)
    (hP : ∀ c s, P s → P (irmsBody w c s).2) :
    ∀ (k : Nat) (c : Cursor) (s : EnergyMonitor α), P s → P (irmsLoop w k c s).2 := by
  intro k
  induction k with
  | zero => intro c s hs; exact hs
  | succ n ih => intro c s hs; exact ih _ _ (hP c s hs)

/-- One more pass of the `calcIrms` loop is a body pass after the passes so far. -/
theorem irmsLoop_succ (w : World) :
    ∀ (k : Nat) (c : Cursor) (s : EnergyMonitor α),
      irmsLoop w (k + 1) c s = irmsBody w (irmsLoop w k c s).1 (irmsLoop w k c s).2 := by
  intro k
  induction k with
  | zero => intro c s; rfl
  | succ n ih =>
    intro c s
    show irmsLoop w (n + 1) (irmsBody w c s).1 (irmsBody w c s).2 = _
    rw [ih]
    rfl

/-- The `calcIrms` loop makes one conversion per pass and never asks the time. -/
theorem irmsLoop_cursor (w : World) :
    ∀ (k : Nat) (c : Cursor) (s : EnergyMonitor α),
      (irmsLoop w k c s).1.reads = c.reads + k ∧ (irmsLoop w k c s).1.ticks = c.ticks := by
  intro k
  induction k with
  | zero => intro c s; exact ⟨rfl, rfl⟩
  | succ n ih =>
    intro c s
    rw [irmsLoop_succ]
    obtain ⟨h1, h2⟩ := ih c s
    refine ⟨?_, ?_⟩
    · show (irmsLoop w n c s).1.reads + 1 = _
      rw [h1]; omega
    · show (irmsLoop w n c s).1.ticks = _
      exact h2

/-- The main loop makes two conversions per iteration: the conversions made are twice
the growth of the sample count. -/
theorem mainLoop_reads (w : World) (crossings : Int) (start timeout : Nat) :
    ∀ (fuel : Nat) (c : Cursor) (s : EnergyMonitor α) (c1 : Cursor) (s1 : EnergyMonitor α),
      mainLoop w crossings start timeout fuel c s = some (c1, s1) →
      c1.reads + 2 * s.numberOfSamples = c.reads + 2 * s1.numberOfSamples := by
  intro fuel
  induction fuel with
  | zero => intro c s c1 s1 h; simp [mainLoop] at h
  | succ k ih =>
    intro c s c1 s1 h
    simp only [mainLoop] at h
    split at h
    · split at h
      · have := ih _ _ _ _ h
        have e1 : (mainBody w { c with ticks := c.ticks + 1 } s).1.reads = c.reads + 2 := rfl
        have e2 : (mainBody w { c with ticks := c.ticks + 1 } s).2.numberOfSamples =
            s.numberOfSamples + 1 := rfl
        rw [e1, e2] at this
        omega
      · simp only [Option.some.injEq, Prod.mk.injEq] at h
        rw [← h.1, ← h.2]
    · simp only [Option.some.injEq, Prod.mk.injEq] at h
      rw [← h.1, ← h.2]

/-- The sum of squares after `n` passes of the `calcIrms` loop is the entry sum plus the
squares of the `n` filtered currents. -/
theorem irmsLoop_sumI (w : World) (c : Cursor) (s : EnergyMonitor α) :
    ∀ n : Nat, (irmsLoop w n c s).2.sumI =
      s.sumI + ∑ k ∈ Finset.range n, (irmsLoop w (k + 1) c s).2.filteredI ^ 2 := by
  intro n
  induction n with
  | zero => simp [irmsLoop]
  | succ m ih =>
    have e : (irmsBody w (irmsLoop w m c s).1 (irmsLoop w m c s).2).2.sumI =
        (irmsLoop w m c s).2.sumI +
          (irmsBody w (irmsLoop w m c s).1 (irmsLoop w m c s).2).2.filteredI ^ 2 := by
      rw [pow_two]; rfl
    rw [Finset.sum_range_succ, irmsLoop_succ w m c s, e, ih, add_assoc]

/-- The main loop leaves the phase calibration constant alone. -/
theorem mainIter_PHASECAL (w : World) (p : Cursor × EnergyMonitor α) :
    ∀ n : Nat, (mainIter w n p).2.PHASECAL = p.2.PHASECAL := by
  intro n
  induction n with
  | zero => rfl
  | succ m ih => rw [mainIter_succ]; exact ih

/-- The three running sums after `n` iterations of the main loop are the entry sums
plus the per-sample terms of the `n` samples. -/
theorem mainIter_sums (w : World) (p : Cursor × EnergyMonitor α) :
    ∀ n : Nat,
      (mainIter w n p).2.sumV =
          p.2.sumV + ∑ k ∈ Finset.range n, (mainIter w (k + 1) p).2.filteredV ^ 2 ∧
        (mainIter w n p).2.sumI =
          p.2.sumI + ∑ k ∈ Finset.range n, (mainIter w (k + 1) p).2.filteredI ^ 2 ∧
        (mainIter w n p).2.sumP =
          p.2.sumP + ∑ k ∈ Finset.range n,
            ((mainIter w (k + 1) p).2.lastFilteredV + p.2.PHASECAL *
                ((mainIter w (k + 1) p).2.filteredV - (mainIter w (k + 1) p).2.lastFilteredV)) *
              (mainIter w (k + 1) p).2.filteredI := by
  intro n
  induction n with
  | zero => simp [mainIter]
  | succ m ih =>
    obtain ⟨hV, hI, hP⟩ := ih
    have hcal := mainIter_PHASECAL w p m
    have eV : (mainStep w (mainIter w m p)).2.sumV =
        (mainIter w m p).2.sumV + (mainStep w (mainIter w m p)).2.filteredV ^ 2 := by
      rw [pow_two]; rfl
    have eI : (mainStep w (mainIter w m p)).2.sumI =
        (mainIter w m p).2.sumI + (mainStep w (mainIter w m p)).2.filteredI ^ 2 := by
      rw [pow_two]; rfl
    have eP : (mainStep w (mainIter w m p)).2.sumP =
        (mainIter w m p).2.sumP +
          ((mainStep w (mainIter w m p)).2.lastFilteredV + (mainIter w m p).2.PHASECAL *
              ((mainStep w (mainIter w m p)).2.filteredV -
                (mainStep w (mainIter w m p)).2.lastFilteredV)) *
            (mainStep w (mainIter w m p)).2.filteredI := rfl
    rw [Finset.sum_range_succ, Finset.sum_range_succ, Finset.sum_range_succ,
      mainIter_succ w m p, eV, eI, eP, hV, hI, hP, hcal]
    exact ⟨add_assoc _ _ _, add_assoc _ _ _, add_assoc _ _ _⟩

/-- `calcVI` is `accumulate` followed by the post-loop calculations. -/
theorem calcVI_eq_accumulate (sqrt : α → α) (w : World) (crossings : Int)
    (timeout fuel : Nat) (c : Cursor) (s : EnergyMonitor α) :
    calcVI sqrt w crossings timeout fuel c s =
      (accumulate w crossings timeout fuel c s).map (fun r => (r.1, calibrate sqrt r.2)) := by
  simp only [calcVI, accumulate]
  split
  · rfl
  · split <;> simp_all

/-- The filter expression sees only the difference of the two raw samples. -/
theorem highPass_offset (f : α) (x y d : Nat) :
    highPass f (x + d) (y + d) = highPass f x y := by
  unfold highPass
  push_cast
  ring

/-- The offset state is the state seen through the offsets. -/
theorem shifted_offsetState (off : Int → Nat) (s : EnergyMonitor α) :
    Shifted off s (offsetState off s) :=
  ⟨⟨rfl, rfl, rfl, rfl, rfl⟩, rfl, rfl, rfl, rfl, rfl, rfl, rfl, rfl, rfl⟩

/-- A pass of the rising-edge body computes the same filtered values with and without
the offsets. -/
theorem edgeBody_shifted (off : Int → Nat) (w : World) (c : Cursor)
    (s t : EnergyMonitor α) (h : Shifted off s t) :
    (edgeBody w c s).1 = (edgeBody (offsetWorld off w) c t).1 ∧
      Shifted off (edgeBody w c s).2 (edgeBody (offsetWorld off w) c t).2 ∧
      (edgeBody w c s).2.lastFilteredV = (edgeBody (offsetWorld off w) c t).2.lastFilteredV := by
  obtain ⟨⟨hpV, hpI, hVC, hIC, hPC⟩, hsV, hsI, hfV, hfI, hSV, hSI, hSP, hcc, hns⟩ := h
  refine ⟨rfl, ⟨⟨hpV, hpI, hVC, hIC, hPC⟩, ?_, ?_, ?_, ?_, hSV, hSI, hSP, hcc, hns⟩, hfV⟩
  · show w.analogRead c.reads t.inPinV + off t.inPinV = w.analogRead c.reads s.inPinV + off s.inPinV
    rw [← hpV]
  · show w.analogRead (c.reads + 1) t.inPinI + off t.inPinI =
      w.analogRead (c.reads + 1) s.inPinI + off s.inPinI
    rw [← hpI]
  · show highPass s.filteredV (w.analogRead c.reads s.inPinV) s.sampleV =
      highPass t.filteredV (w.analogRead c.reads t.inPinV + off t.inPinV) t.sampleV
    rw [← hpV, ← hfV, hsV, highPass_offset]
  · show highPass s.filteredI (w.analogRead (c.reads + 1) s.inPinI) s.sampleI =
      highPass t.filteredI (w.analogRead (c.reads + 1) t.inPinI + off t.inPinI) t.sampleI
    rw [← hpI, ← hfI, hsI, highPass_offset]

/-- A pass of the main-loop body computes the same filtered values, sums and counters
with and without the offsets. -/
theorem mainBody_shifted (off : Int → Nat) (w : World) (c : Cursor)
    (s t : EnergyMonitor α) (h : Shifted off s t) :
    (mainBody w c s).1 = (mainBody (offsetWorld off w) c t).1 ∧
      Shifted off (mainBody w c s).2 (mainBody (offsetWorld off w) c t).2 := by
  obtain ⟨⟨hpV, hpI, hVC, hIC, hPC⟩, hsV, hsI, hfV, hfI, hSV, hSI, hSP, hcc, hns⟩ := h
  have eV : highPass s.filteredV (w.analogRead c.reads s.inPinV) s.sampleV =
      highPass t.filteredV (w.analogRead c.reads t.inPinV + off t.inPinV) t.sampleV := by
    rw [← hpV, ← hfV, hsV, highPass_offset]
  have eI : highPass s.filteredI (w.analogRead (c.reads + 1) s.inPinI) s.sampleI =
      highPass t.filteredI (w.analogRead (c.reads + 1) t.inPinI + off t.inPinI) t.sampleI := by
    rw [← hpI, ← hfI, hsI, highPass_offset]
  refine ⟨rfl, ⟨⟨hpV, hpI, hVC, hIC, hPC⟩, ?_, ?_, eV, eI, ?_, ?_, ?_, ?_, ?_⟩⟩
  · show w.analogRead c.reads t.inPinV + off t.inPinV = w.analogRead c.reads s.inPinV + off s.inPinV
    rw [← hpV]
  · show w.analogRead (c.reads + 1) t.inPinI + off t.inPinI =
      w.analogRead (c.reads + 1) s.inPinI + off s.inPinI
    rw [← hpI]
  · show s.sumV + _ * _ = t.sumV + _ * _
    rw [hSV, eV]; rfl
  · show s.sumI + _ * _ = t.sumI + _ * _
    rw [hSI, eI]; rfl
  · show s.sumP + (s.filteredV + s.PHASECAL * (_ - s.filteredV)) * _ =
      t.sumP + (t.filteredV + t.PHASECAL * (_ - t.filteredV)) * _
    rw [hSP, eV, eI, hfV, hPC]; rfl
  · show (if 0 < _ ∧ s.filteredV < 0 then s.crossCount + 1 else s.crossCount) =
      (if 0 < _ ∧ t.filteredV < 0 then t.crossCount + 1 else t.crossCount)
    rw [eV, hfV, hcc]; rfl
  · show s.numberOfSamples + 1 = t.numberOfSamples + 1
    rw [hns]

/-- The rising-edge loop runs in lockstep with and without the offsets. -/
theorem awaitRisingEdge_shifted (off : Int → Nat) (w : World) :
    ∀ (fuel : Nat) (c : Cursor) (s t : EnergyMonitor α), Shifted off s t →
      Lockstep (fun r r2 => r.1 = r2.1 ∧ Shifted off r.2 r2.2)
        (awaitRisingEdge w fuel c s) (awaitRisingEdge (offsetWorld off w) fuel c t) := by
  intro fuel
  induction fuel with
  | zero => intro c s t _; exact Or.inl ⟨rfl, rfl⟩
  | succ k ih =>
    intro c s t hst
    obtain ⟨hc, hst1, hlast⟩ := edgeBody_shifted off w c s t hst
    have hf : (edgeBody w c s).2.filteredV = (edgeBody (offsetWorld off w) c t).2.filteredV :=
      hst1.2.2.2.1
    simp only [awaitRisingEdge, hf, hlast]
    split
    · exact Or.inr ⟨_, _, rfl, rfl, hc, hst1⟩
    · rw [hc]
      exact ih _ _ _ hst1

/-- The main loop runs in lockstep with and without the offsets. -/
theorem mainLoop_shifted (off : Int → Nat) (w : World) (crossings : Int)
    (start timeout : Nat) :
    ∀ (fuel : Nat) (c : Cursor) (s t : EnergyMonitor α), Shifted off s t →
      Lockstep (fun r r2 => r.1 = r2.1 ∧ Shifted off r.2 r2.2)
        (mainLoop w crossings start timeout fuel c s)
        (mainLoop (offsetWorld off w) crossings start timeout fuel c t) := by
  intro fuel
  induction fuel with
  | zero => intro c s t _; exact Or.inl ⟨rfl, rfl⟩
  | succ k ih =>
    intro c s t hst
    have hcc : s.crossCount = t.crossCount := hst.2.2.2.2.2.2.2.2.1
    have hm : millisAt (offsetWorld off w) c.ticks = millisAt w c.ticks := rfl
    simp only [mainLoop, hcc, hm]
    split
    · split
      · obtain ⟨hc, hst2⟩ := mainBody_shifted off w { c with ticks := c.ticks + 1 } s t hst
        rw [hc]
        exact ih _ _ _ hst2
      · exact Or.inr ⟨_, _, rfl, rfl, rfl, hst⟩
    · exact Or.inr ⟨_, _, rfl, rfl, rfl, hst⟩

/-- Every iteration of the main loop computes the same filtered values with and without
the offsets. -/
theorem mainIter_shifted (off : Int → Nat) (w : World) (c : Cursor)
    (s t : EnergyMonitor α) (h : Shifted off s t) :
    ∀ n : Nat, (mainIter w n (c, s)).1 = (mainIter (offsetWorld off w) n (c, t)).1 ∧
      Shifted off (mainIter w n (c, s)).2 (mainIter (offsetWorld off w) n (c, t)).2 := by
  intro n
  induction n with
  | zero => exact ⟨rfl, h⟩
  | succ m ih =>
    obtain ⟨hc, hst⟩ := ih
    rw [mainIter_succ, mainIter_succ]
    simp only [mainStep]
    rw [← hc]
    exact mainBody_shifted off w _ _ _ hst

/-- Every pass of the `calcIrms` loop computes the same filtered current and sum with
and without the offsets. -/
theorem irmsLoop_shifted (off : Int → Nat) (w : World) :
    ∀ (k : Nat) (c : Cursor) (s t : EnergyMonitor α), Shifted off s t →
      (irmsLoop w k c s).1 = (irmsLoop (offsetWorld off w) k c t).1 ∧
        Shifted off (irmsLoop w k c s).2 (irmsLoop (offsetWorld off w) k c t).2 := by
  intro k
  induction k with
  | zero => intro c s t h; exact ⟨rfl, h⟩
  | succ m ih =>
    intro c s t h
    obtain ⟨⟨hpV, hpI, hVC, hIC, hPC⟩, hsV, hsI, hfV, hfI, hSV, hSI, hSP, hcc, hns⟩ := h
    have eI : highPass s.filteredI (w.analogRead c.reads s.inPinI) s.sampleI =
        highPass t.filteredI (w.analogRead c.reads t.inPinI + off t.inPinI) t.sampleI := by
      rw [← hpI, ← hfI, hsI, highPass_offset]
    have hb : Shifted off (irmsBody w c s).2 (irmsBody (offsetWorld off w) c t).2 := by
      refine ⟨⟨hpV, hpI, hVC, hIC, hPC⟩, hsV, ?_, hfV, eI, hSV, ?_, hSP, hcc, hns⟩
      · show w.analogRead c.reads t.inPinI + off t.inPinI =
          w.analogRead c.reads s.inPinI + off s.inPinI
        rw [← hpI]
      · show s.sumI + _ * _ = t.sumI + _ * _
        rw [hSI, eI]; rfl
    exact ih { c with reads := c.reads + 1 } _ _ hb

/-- The post-loop calculations give the same Result with and without the offsets. -/
theorem calibrate_shifted (off : Int → Nat) (sqrt : α → α) (s t : EnergyMonitor α)
    (h : Shifted off s t) : resultOf (calibrate sqrt s) = resultOf (calibrate sqrt t) := by
  obtain ⟨⟨hpV, hpI, hVC, hIC, hPC⟩, hsV, hsI, hfV, hfI, hSV, hSI, hSP, hcc, hns⟩ := h
  simp only [resultOf, calibrate]
  rw [hVC, hIC, hSV, hSI, hSP, hns]

/-- The seek-near-zero loop runs in lockstep with and without the offsets when the
offset of the voltage pin moves no reading into or out of the band. -/
theorem seekNearZero_shifted (off : Int → Nat) (w : World) (start timeout : Nat) (pin : Int)
    (hband : ∀ k, (w.analogRead k pin + off pin < 2078 ∧ w.analogRead k pin + off pin > 2018) ↔
      (w.analogRead k pin < 2078 ∧ w.analogRead k pin > 2018)) :
    ∀ (fuel : Nat) (c : Cursor) (s t : EnergyMonitor α), s.inPinV = pin → t.inPinV = pin →
      Lockstep (fun r r2 => r.1 = r2.1 ∧
          ∃ v v2, r.2 = { s with startV := v } ∧ r2.2 = { t with startV := v2 })
        (seekNearZero w start timeout fuel c s)
        (seekNearZero (offsetWorld off w) start timeout fuel c t) := by
  intro fuel
  induction fuel with
  | zero => intro c s t _ _; exact Or.inl ⟨rfl, rfl⟩
  | succ k ih =>
    intro c s t hs ht
    have hm : millisAt (offsetWorld off w) c.ticks = millisAt w c.ticks := rfl
    have hr : (offsetWorld off w).analogRead c.reads t.inPinV =
        w.analogRead c.reads s.inPinV + off s.inPinV := by rw [ht, hs]; rfl
    have hb := hband c.reads
    rw [← hs] at hb
    have hdec : decide (w.analogRead c.reads s.inPinV + off s.inPinV < 2078 ∧
        w.analogRead c.reads s.inPinV + off s.inPinV > 2018) =
        decide (w.analogRead c.reads s.inPinV < 2078 ∧ w.analogRead c.reads s.inPinV > 2018) :=
      decide_eq_decide.mpr hb
    simp only [seekNearZero, hm, hr, hdec]
    split
    · exact Or.inr ⟨_, _, rfl, rfl, rfl, _, _, rfl, rfl⟩
    · rcases ih { reads := c.reads + 1, ticks := c.ticks + 1 }
        { s with startV := w.analogRead c.reads s.inPinV }
        { t with startV := w.analogRead c.reads s.inPinV + off s.inPinV } hs ht with h | h
      · exact Or.inl h
      · obtain ⟨x, y, hx, hy, hxy, v, v2, hv1, hv2⟩ := h
        exact Or.inr ⟨x, y, hx, hy, hxy, v, v2, hv1, hv2⟩

/-- A whole cycle returns the same Result with and without the offsets when the offset
of the voltage pin moves no reading into or out of the seek band. -/
theorem calcVI_shifted (off : Int → Nat) (sqrt : α → α) (w : World) (crossings : Int)
    (timeout fuel : Nat) (c : Cursor) (s t : EnergyMonitor α) (hst : Shifted off s t)
    (hband : ∀ k, (w.analogRead k s.inPinV + off s.inPinV < 2078 ∧
        w.analogRead k s.inPinV + off s.inPinV > 2018) ↔
      (w.analogRead k s.inPinV < 2078 ∧ w.analogRead k s.inPinV > 2018)) :
    (calcVI sqrt (offsetWorld off w) crossings timeout fuel c t).map (fun r => resultOf r.2) =
      (calcVI sqrt w crossings timeout fuel c s).map (fun r => resultOf r.2) := by
  have hreset : Shifted off (resetCounters s) (resetCounters t) := by
    obtain ⟨hcal, hsV, hsI, hfV, hfI, hSV, hSI, hSP, -, -⟩ := hst
    exact ⟨hcal, hsV, hsI, hfV, hfI, hSV, hSI, hSP, rfl, rfl⟩
  have hm : ∀ k, millisAt (offsetWorld off w) k = millisAt w k := fun _ => rfl
  simp only [calcVI, synchronize, hm]
  rcases seekNearZero_shifted off w (millisAt w c.ticks) timeout s.inPinV hband fuel
    { c with ticks := c.ticks + 1 } (resetCounters s) (resetCounters t) rfl
    hst.1.1.symm with h | h
  · simp only [h.1, h.2]
  · obtain ⟨⟨c1, s1⟩, ⟨d1, t1⟩, hx, hy, hc1, v, v2, hv1, hv2⟩ := h
    simp only [hx, hy]
    have hcd : c1 = d1 := hc1
    subst hcd
    have hst1 : Shifted off s1 t1 := by
      have a1 : s1 = _ := hv1
      have a2 : t1 = _ := hv2
      rw [a1, a2]; exact hreset
    rcases awaitRisingEdge_shifted off w fuel c1 s1 t1 hst1 with h | h
    · simp only [h.1, h.2]
    · obtain ⟨⟨c2, s2⟩, ⟨d2, t2⟩, hx2, hy2, hc2, hst2⟩ := h
      simp only [hx2, hy2]
      have hcd : c2 = d2 := hc2
      subst hcd
      rcases mainLoop_shifted off w crossings (millisAt w c2.ticks) timeout fuel
        { c2 with ticks := c2.ticks + 1 } s2 t2 hst2 with h | h
      · simp only [h.1, h.2]
      · obtain ⟨⟨c4, s4⟩, ⟨d4, t4⟩, hx4, hy4, -, hst4⟩ := h
        simp only [hx4, hy4, Option.map_some', Option.some.injEq]
        exact (calibrate_shifted off sqrt s4 t4 hst4).symm

/-- Under a constant raw input equal to the stored last raw sample, each main-loop
iteration multiplies the filtered voltage by 0.996. -/
theorem mainIter_constant_V (w : World) (p : Cursor × EnergyMonitor α)
    (hconst : ∀ k, w.analogRead k p.2.inPinV = p.2.sampleV) :
    ∀ m : Nat, (mainIter w m p).2.filteredV = 0.996 ^ m * p.2.filteredV ∧
      (mainIter w m p).2.sampleV = p.2.sampleV ∧ (mainIter w m p).2.inPinV = p.2.inPinV := by
  intro m
  induction m with
  | zero => exact ⟨by simp [mainIter], rfl, rfl⟩
  | succ n ih =>
    obtain ⟨hf, hs, hp⟩ := ih
    rw [mainIter_succ]
    refine ⟨?_, ?_, hp⟩
    · show highPass (mainIter w n p).2.filteredV
        (w.analogRead _ (mainIter w n p).2.inPinV) (mainIter w n p).2.sampleV = _
      rw [hp, hconst, hs, hf]
      unfold highPass
      rw [pow_succ]
      ring
    · show w.analogRead _ (mainIter w n p).2.inPinV = _
      rw [hp, hconst]

/-- Under a constant raw input equal to the stored last raw sample, each pass of the
`calcIrms` loop multiplies the filtered current by 0.996. -/
theorem irmsLoop_constant (w : World) (c : Cursor) (s : EnergyMonitor α)
    (hconst : ∀ k, w.analogRead k s.inPinI = s.sampleI) :
    ∀ m : Nat, (irmsLoop w m c s).2.filteredI = 0.996 ^ m * s.filteredI ∧
      (irmsLoop w m c s).2.sampleI = s.sampleI ∧ (irmsLoop w m c s).2.inPinI = s.inPinI := by
  intro m
  induction m with
  | zero => exact ⟨by simp [irmsLoop], rfl, rfl⟩
  | succ n ih =>
    obtain ⟨hf, hs, hp⟩ := ih
    rw [irmsLoop_succ]
    refine ⟨?_, ?_, hp⟩
    · show highPass (irmsLoop w n c s).2.filteredI
        (w.analogRead _ (irmsLoop w n c s).2.inPinI) (irmsLoop w n c s).2.sampleI = _
      rw [hp, hconst, hs, hf]
      unfold highPass
      rw [pow_succ]
      ring
    · show w.analogRead _ (irmsLoop w n c s).2.inPinI = _
      rw [hp, hconst]

/-- The magnitude of `0.996 ^ m * x` never increases with `m` and falls below every
positive bound. -/
theorem decay_to_zero (x : α) :
    (∀ m : Nat, |0.996 ^ (m + 1) * x| ≤ |0.996 ^ m * x|) ∧
      (∀ ε : α, 0 < ε → ∃ M : Nat, ∀ m, M ≤ m → |0.996 ^ m * x| < ε) := by
  have hk0 : (0 : α) ≤ 0.996 := by norm_num
  have hk1 : (0.996 : α) ≤ 1 := by norm_num
  have hk1s : (0.996 : α) < 1 := by norm_num
  constructor
  · intro m
    rw [abs_mul, abs_mul, abs_of_nonneg (pow_nonneg hk0 _), abs_of_nonneg (pow_nonneg hk0 _)]
    apply mul_le_mul_of_nonneg_right _ (abs_nonneg x)
    rw [pow_succ]
    calc (0.996 : α) ^ m * 0.996 ≤ 0.996 ^ m * 1 :=
          mul_le_mul_of_nonneg_left hk1 (pow_nonneg hk0 _)
      _ = 0.996 ^ m := mul_one _
  · intro ε hε
    have hpos : (0 : α) < ε / (|x| + 1) := div_pos hε (by positivity)
    obtain ⟨M, hM⟩ := exists_pow_lt_of_lt_one hpos hk1s
    refine ⟨M, fun m hm => ?_⟩
    rw [abs_mul, abs_of_nonneg (pow_nonneg hk0 _)]
    have hle : (0.996 : α) ^ m ≤ 0.996 ^ M := pow_le_pow_of_le_one hk0 hk1 hm
    have hx1 : |x| < |x| + 1 := lt_add_one _
    have hx0 : (0 : α) < |x| + 1 := by positivity
    calc (0.996 : α) ^ m * |x| ≤ 0.996 ^ M * |x| :=
          mul_le_mul_of_nonneg_right hle (abs_nonneg x)
      _ ≤ 0.996 ^ M * (|x| + 1) :=
          mul_le_mul_of_nonneg_left (le_of_lt hx1) (pow_nonneg hk0 _)
      _ < ε / (|x| + 1) * (|x| + 1) := mul_lt_mul_of_pos_right hM hx0
      _ = ε := div_mul_cancel₀ ε (ne_of_gt hx0)

/-- The post-loop calculations on a state with a positive sample count and non-negative
sums of squares give finite values. -/
theorem calibrate_finite (sqrt : α → α) (s : EnergyMonitor α) (hn : 0 < s.numberOfSamples)
    (hV : 0 ≤ s.sumV) (hI : 0 ≤ s.sumI) :
    (calibrate sqrt s).realPower =
        some (s.VCAL * ((3300 / 1000) / 4096) * (s.ICAL * ((3300 / 1000) / 4096)) * s.sumP /
          (s.numberOfSamples : α)) ∧
      (calibrate sqrt s).apparentPower =
        some ((s.VCAL * ((3300 / 1000) / 4096) * sqrt (s.sumV / (s.numberOfSamples : α))) *
          (s.ICAL * ((3300 / 1000) / 4096) * sqrt (s.sumI / (s.numberOfSamples : α)))) ∧
      (calibrate sqrt s).powerFactor =
        fdiv (calibrate sqrt s).realPower (calibrate sqrt s).apparentPower := by
  have hne : ((s.numberOfSamples : Int)) ≠ 0 := by exact_mod_cast Nat.pos_iff_ne_zero.mp hn
  have hpos : (0 : α) < (s.numberOfSamples : α) := by exact_mod_cast hn
  have hqV : ¬ s.sumV / (s.numberOfSamples : α) < 0 :=
    not_lt.mpr (div_nonneg hV (le_of_lt hpos))
  have hqI : ¬ s.sumI / (s.numberOfSamples : α) < 0 :=
    not_lt.mpr (div_nonneg hI (le_of_lt hpos))
  refine ⟨?_, ?_, rfl⟩
  · simp only [calibrate, divCount, hne, if_false, Int.cast_natCast]
  · simp only [calibrate, divCount, hne, if_false, Int.cast_natCast, fsqrt, hqV, hqI, fmul]

/-- The Cauchy-Schwarz step behind the power factor bound. -/
theorem realPower_le_apparentPower (x y P V I n a b : α) (hn : 0 < n)
    (ha : a * a = V / n) (hb : b * b = I / n) (hcs : P ^ 2 ≤ V * I) :
    |x * y * P / n| ≤ |(x * a) * (y * b)| := by
  apply sq_le_sq.mp
  have h1 : (x * y * P / n) ^ 2 = (x * y) ^ 2 * (P ^ 2 / n ^ 2) := by
    rw [div_pow, mul_pow (x * y) P, mul_div_assoc]
  have h2 : ((x * a) * (y * b)) ^ 2 = (x * y) ^ 2 * (V * I / n ^ 2) := by
    have : ((x * a) * (y * b)) ^ 2 = (x * y) ^ 2 * ((a * a) * (b * b)) := by ring
    rw [this, ha, hb, div_mul_div_comm, ← pow_two]
  rw [h1, h2]
  apply mul_le_mul_of_nonneg_left _ (sq_nonneg _)
  exact div_le_div_of_nonneg_right hcs (sq_nonneg n)

set_option maxRecDepth 4000 in
/-- A cycle of `steady` in `steadyWorld` over the reals takes two samples. -/
theorem steady_cycle_samples :
    (calcVI Real.sqrt steadyWorld 1 10 3 ⟨0, 0⟩ (steady : EnergyMonitor ℝ)).map
      (fun p => p.2.numberOfSamples) = some 2 := by
  simp only [calcVI, synchronize, seekNearZero, awaitRisingEdge, mainLoop, edgeBody, mainBody,
    highPass, steadyWorld, steady, configured, current, voltage, zeroed, resetCounters,
    millisAt, elapsed, calibrate]
  norm_num

set_option maxRecDepth 4000 in
/-- The Result of a cycle of `steady` with `PHASECAL = 3` in `steadyWorld`, over the
reals: the power factor is 5. -/
theorem steady_cycle_phasecal3 :
    (calcVI Real.sqrt steadyWorld 1 10 3 ⟨0, 0⟩
        ({ (steady : EnergyMonitor ℝ) with PHASECAL := 3 })).map
      (fun p => (p.2.realPower, p.2.apparentPower, p.2.powerFactor, p.2.numberOfSamples)) =
      some (some (25319658375 / 16777216),
        some (825 / 4096 * 249 * (99 / 4096 * 249)), some 5, 2) := by
  have hsq : Real.sqrt 62001 = 249 := by
    rw [show (62001 : ℝ) = 249 ^ 2 by norm_num]
    exact Real.sqrt_sq (by norm_num)
  simp only [calcVI, synchronize, seekNearZero, awaitRisingEdge, mainLoop, edgeBody, mainBody,
    highPass, steadyWorld, steady, configured, current, voltage, zeroed, resetCounters,
    millisAt, elapsed, calibrate, divCount, fsqrt, fmul, fdiv]
  norm_num
  rw [hsq]
  norm_num

end Lemmas

section Claims

variable {α : Type} [LinearOrderedField α] [FloorRing α]

/-- C1 (counterexample): a cycle with `timeout = 0` on a configured object returns with
`numberOfSamples = 0` and with `Vrms`, `Irms` and `realPower` equal to the quotients by
the zero sample count, which are not finite numbers; nothing else is reported. -/
theorem calcVI_timeout_zero_divides :
    (calcVI sqrtQ edgeWorld 1 0 20 ⟨0, 0⟩ (configured : EnergyMonitor ℚ)).map
        (fun p => (p.2.numberOfSamples, p.2.Vrms, p.2.Irms, p.2.realPower)) =
      some (0, fmul (some (250 * ((3300 / 1000) / 4096))) (fsqrt sqrtQ (divCount (0 : ℚ) 0)),
        fmul (some (30 * ((3300 / 1000) / 4096))) (fsqrt sqrtQ (divCount (0 : ℚ) 0)),
        divCount (250 * ((3300 / 1000) / 4096) * (30 * ((3300 / 1000) / 4096)) * (0 : ℚ)) 0) ∧
    (calcVI sqrtQ edgeWorld 1 0 20 ⟨0, 0⟩ (configured : EnergyMonitor ℚ)).map
        (fun p => resultOf p.2) = some (⟨none, none, none, none, none⟩, 0) := by
  decide!

/-- C1 (as amended): when the synchronizer of a `timeout = 0` cycle completes, `calcVI`
returns after zero main-loop iterations (`numberOfSamples = 0`) and runs the ordinary
post-loop calculations on the synchronizer's exit state: no check is made, the
divisions by the zero sample count are carried out and all five Result fields are
non-finite. -/
theorem calcVI_timeout_zero (sqrt : α → α) (w : World) (crossings : Int) (fuel : Nat)
    (c : Cursor) (s : EnergyMonitor α) (c2 : Cursor) (s2 : EnergyMonitor α)
    (h : synchronize w 0 fuel c s = some (c2, s2)) :
    ∃ c4 s5, calcVI sqrt w crossings 0 fuel c s = some (c4, s5) ∧
      s5 = calibrate sqrt s2 ∧ s5.numberOfSamples = 0 ∧
      s5.Vrms = none ∧ s5.Irms = none ∧ s5.realPower = none ∧
      s5.apparentPower = none ∧ s5.powerFactor = none := by
  obtain ⟨k, rfl⟩ := synchronize_fuel_pos w 0 fuel c s _ h
  obtain ⟨c4, h4⟩ := mainLoop_timeout_zero w crossings (millisAt w c2.ticks) k
    { c2 with ticks := c2.ticks + 1 } s2
  have hn : s2.numberOfSamples = 0 := synchronize_numberOfSamples w 0 _ c s c2 s2 h
  refine ⟨c4, calibrate sqrt s2, ?_, rfl, ?_⟩
  · simp only [calcVI, h, h4]
  · simp [calibrate, hn, divCount, fsqrt, fmul, fdiv]

/-- C1 (witness): the amended statement at the configured object in `edgeWorld`. -/
theorem calcVI_timeout_zero_witness :
    ∃ c4 s5, calcVI sqrtQ edgeWorld 1 0 20 ⟨0, 0⟩ (configured : EnergyMonitor ℚ) = some (c4, s5) ∧
      s5.numberOfSamples = 0 ∧ s5.Vrms = none ∧ s5.Irms = none ∧ s5.realPower = none := by
  have hs : (synchronize edgeWorld 0 20 ⟨0, 0⟩ (configured : EnergyMonitor ℚ)).isSome = true := by
    decide!
  obtain ⟨⟨c2, s2⟩, h2⟩ := Option.isSome_iff_exists.mp hs
  obtain ⟨c4, s5, h5, -, hn, hv, hi, hp, -, -⟩ :=
    calcVI_timeout_zero sqrtQ edgeWorld 1 20 ⟨0, 0⟩ configured c2 s2 h2
  exact ⟨c4, s5, h5, hn, hv, hi, hp⟩

/-- C2 (counterexample): a cycle of two samples with `ICAL = 0` has apparent power 0
and real power 0, and its power factor is the quotient `0 / 0`, not a finite number. -/
theorem calcVI_powerFactor_zero_apparent :
    (calcVI sqrtQ edgeWorld 1 3 20 ⟨0, 0⟩
        (current (voltage zeroed 0 250 1) 1 0 : EnergyMonitor ℚ)).map
        (fun p => (p.2.numberOfSamples, p.2.realPower, p.2.apparentPower, p.2.powerFactor)) =
      some (2, some 0, some 0, fdiv (some (0 : ℚ)) (some 0)) ∧
    fdiv (some (0 : ℚ)) (some 0) = none := by
  decide!

/-- C2 (as amended): the power factor of every returning cycle is the float quotient of
the real power by the apparent power, computed with no check; when the apparent power
is 0 it is the non-finite result of a division by zero. -/
theorem calcVI_powerFactor (sqrt : α → α) (w : World) (crossings : Int) (timeout fuel : Nat)
    (c : Cursor) (s : EnergyMonitor α) (c4 : Cursor) (s5 : EnergyMonitor α)
    (h : calcVI sqrt w crossings timeout fuel c s = some (c4, s5)) :
    s5.powerFactor = fdiv s5.realPower s5.apparentPower ∧
      (s5.apparentPower = some 0 → s5.powerFactor = none) := by
  obtain ⟨c2, s2, s4, -, -, rfl⟩ := calcVI_eq_some sqrt w crossings timeout fuel c s c4 s5 h
  have hpf : (calibrate sqrt s4).powerFactor =
      fdiv (calibrate sqrt s4).realPower (calibrate sqrt s4).apparentPower := rfl
  refine ⟨hpf, fun h0 => ?_⟩
  rw [hpf, h0]
  cases (calibrate sqrt s4).realPower <;> simp [fdiv]

/-- C2 (witness): the amended statement at a two-sample cycle with `ICAL = 0`. -/
theorem calcVI_powerFactor_witness :
    ∃ r, calcVI sqrtQ edgeWorld 1 3 20 ⟨0, 0⟩
        (current (voltage zeroed 0 250 1) 1 0 : EnergyMonitor ℚ) = some r ∧
      r.2.powerFactor = fdiv r.2.realPower r.2.apparentPower ∧
      (r.2.apparentPower = some 0 → r.2.powerFactor = none) := by
  have hs : (calcVI sqrtQ edgeWorld 1 3 20 ⟨0, 0⟩
      (current (voltage zeroed 0 250 1) 1 0 : EnergyMonitor ℚ)).isSome = true := by decide!
  obtain ⟨⟨c4, s5⟩, h5⟩ := Option.isSome_iff_exists.mp hs
  exact ⟨(c4, s5), h5, calcVI_powerFactor sqrtQ edgeWorld 1 3 20 ⟨0, 0⟩ _ c4 s5 h5⟩

/-- C3 (failing input): on a configured, zero-initialised object whose pins read a
constant 2048, `calcVI` does not return, whatever the clock, the fuel, the timeout and
the crossing target: the rising-edge loop consults no clock and never sees the filtered
voltage go from negative to positive. -/
theorem calcVI_flat_never_returns (sqrt : α → α) (clock : Nat → Nat) (crossings : Int)
    (timeout fuel : Nat) (c : Cursor) :
    calcVI sqrt (flatWorld clock) crossings timeout fuel c (configured : EnergyMonitor α) =
      none := by
  have hsync : synchronize (flatWorld clock) timeout fuel c (configured : EnergyMonitor α) =
      none := by
    simp only [synchronize]
    split
    · rfl
    · rename_i c1 s1 hseek
      have h1 := seekNearZero_startV (flatWorld clock) _ _ _ _ _ _ _ hseek
      apply awaitRisingEdge_flat
      · rw [h1]; simp [resetCounters, configured, current, voltage, zeroed]
      · rw [h1]; simp [resetCounters, configured, current, voltage, zeroed]
  simp only [calcVI, hsync]

/-- C4: for a target `crossings >= 0`, at the exit of the main loop of a returning
cycle `crossCount <= crossings`; an iteration adds 0 or 1 to `crossCount`; and when the
loop has exited on the crossing condition (`crossCount < crossings` false) then
`crossCount = crossings`. -/
theorem calcVI_crossCount_le (sqrt : α → α) (w : World) (crossings : Int)
    (timeout fuel : Nat) (c : Cursor) (s : EnergyMonitor α) (c4 : Cursor)
    (s5 : EnergyMonitor α) (hc : 0 ≤ crossings)
    (h : calcVI sqrt w crossings timeout fuel c s = some (c4, s5)) :
    s5.crossCount ≤ crossings ∧
      (¬ s5.crossCount < crossings → s5.crossCount = crossings) ∧
      (∀ (c1 : Cursor) (t : EnergyMonitor α),
        (mainBody w c1 t).2.crossCount = t.crossCount ∨
          (mainBody w c1 t).2.crossCount = t.crossCount + 1) := by
  obtain ⟨c2, s2, s4, hsync, hmain, rfl⟩ := calcVI_eq_some sqrt w crossings timeout fuel c s c4 s5 h
  have h2 : s2.crossCount = 0 := synchronize_crossCount w timeout fuel c s c2 s2 hsync
  have hstep : ∀ (c1 : Cursor) (t : EnergyMonitor α),
      (mainBody w c1 t).2.crossCount = t.crossCount ∨
        (mainBody w c1 t).2.crossCount = t.crossCount + 1 := by
    intro c1 t
    simp only [mainBody]
    split
    · exact Or.inr rfl
    · exact Or.inl rfl
  have h4 : s4.crossCount ≤ crossings :=
    mainLoop_inv w crossings _ timeout (fun t => t.crossCount ≤ crossings)
      (fun c1 t hlt _ => by
        rcases hstep c1 t with h | h
        · rw [h]; exact le_of_lt hlt
        · rw [h]; exact Int.add_one_le_of_lt hlt)
      fuel _ s2 c4 s4 hmain (show s2.crossCount ≤ crossings by rw [h2]; exact hc)
  have h5 : (calibrate sqrt s4).crossCount = s4.crossCount := rfl
  refine ⟨by rw [h5]; exact h4, fun hge => ?_, hstep⟩
  rw [h5] at hge ⊢
  exact le_antisymm h4 (not_lt.mp hge)

/-- C4 (witness): a cycle with target 1 that ends on its first crossing. -/
theorem calcVI_crossCount_le_witness :
    ∃ r, calcVI sqrtQ edgeWorld 1 1000 20 ⟨0, 0⟩ (configured : EnergyMonitor ℚ) = some r ∧
      r.2.crossCount = 1 ∧ r.2.numberOfSamples = 2 ∧ r.2.crossCount ≤ 1 := by
  have hs : (calcVI sqrtQ edgeWorld 1 1000 20 ⟨0, 0⟩ (configured : EnergyMonitor ℚ)).map
      (fun p => (p.2.crossCount, p.2.numberOfSamples)) = some (1, 2) := by decide!
  obtain ⟨⟨c4, s5⟩, h5⟩ := Option.isSome_iff_exists.mp
    (show (calcVI sqrtQ edgeWorld 1 1000 20 ⟨0, 0⟩ (configured : EnergyMonitor ℚ)).isSome = true by
      decide!)
  have hv := of_map_eq_some _
    (fun p : Cursor × EnergyMonitor ℚ => (p.2.crossCount, p.2.numberOfSamples)) _ (c4, s5) hs h5
  simp only [Prod.mk.injEq] at hv
  exact ⟨(c4, s5), h5, hv.1, hv.2,
    (calcVI_crossCount_le sqrtQ edgeWorld 1 1000 20 ⟨0, 0⟩ configured c4 s5 (by decide) h5).1⟩

/-- C5: a returning cycle with `n = numberOfSamples > 0` computes its Result from the
loop-exit sums `sumV`, `sumI`, `sumP` (those of the main-loop exit state `s4`) as
`Vrms = V_RATIO * sqrt(sumV / n)`, `Irms = I_RATIO * sqrt(sumI / n)` (a NaN when the mean
is negative, which needs negative sums on entry), `realPower = V_RATIO * I_RATIO * sumP / n`,
`apparentPower = Vrms * Irms` and `powerFactor = realPower / apparentPower`, with
`V_RATIO = VCAL * 3.3 / 4096` and `I_RATIO = ICAL * 3.3 / 4096`; all five fields are
assigned from these values alone. -/
theorem calcVI_result (sqrt : α → α) (w : World) (crossings : Int) (timeout fuel : Nat)
    (c : Cursor) (s : EnergyMonitor α) (c4 : Cursor) (s5 : EnergyMonitor α)
    (h : calcVI sqrt w crossings timeout fuel c s = some (c4, s5))
    (hn : 0 < s5.numberOfSamples) :
    ∃ c2 s2 s4, synchronize w timeout fuel c s = some (c2, s2) ∧
      mainLoop w crossings (millisAt w c2.ticks) timeout fuel
        { c2 with ticks := c2.ticks + 1 } s2 = some (c4, s4) ∧
      s4.numberOfSamples = s5.numberOfSamples ∧
      s5.Vrms = (if s4.sumV / (s5.numberOfSamples : α) < 0 then none
        else some (s.VCAL * 3.3 / 4096 * sqrt (s4.sumV / (s5.numberOfSamples : α)))) ∧
      s5.Irms = (if s4.sumI / (s5.numberOfSamples : α) < 0 then none
        else some (s.ICAL * 3.3 / 4096 * sqrt (s4.sumI / (s5.numberOfSamples : α)))) ∧
      s5.realPower = some ((s.VCAL * 3.3 / 4096) * (s.ICAL * 3.3 / 4096) * s4.sumP /
        (s5.numberOfSamples : α)) ∧
      s5.apparentPower = fmul s5.Vrms s5.Irms ∧
      s5.powerFactor = fdiv s5.realPower s5.apparentPower ∧
      (0 ≤ s.sumV → 0 ≤ s.sumI →
        s5.Vrms = some (s.VCAL * 3.3 / 4096 * sqrt (s4.sumV / (s5.numberOfSamples : α))) ∧
        s5.Irms = some (s.ICAL * 3.3 / 4096 * sqrt (s4.sumI / (s5.numberOfSamples : α))) ∧
        s5.apparentPower = some
          ((s.VCAL * 3.3 / 4096 * sqrt (s4.sumV / (s5.numberOfSamples : α))) *
            (s.ICAL * 3.3 / 4096 * sqrt (s4.sumI / (s5.numberOfSamples : α)))) ∧
        ((s.VCAL * 3.3 / 4096 * sqrt (s4.sumV / (s5.numberOfSamples : α))) *
            (s.ICAL * 3.3 / 4096 * sqrt (s4.sumI / (s5.numberOfSamples : α))) ≠ 0 →
          s5.powerFactor = some
            (((s.VCAL * 3.3 / 4096) * (s.ICAL * 3.3 / 4096) * s4.sumP /
                (s5.numberOfSamples : α)) /
              ((s.VCAL * 3.3 / 4096 * sqrt (s4.sumV / (s5.numberOfSamples : α))) *
                (s.ICAL * 3.3 / 4096 * sqrt (s4.sumI / (s5.numberOfSamples : α))))))) := by
  obtain ⟨c2, s2, s4, hsync, hmain, rfl⟩ := calcVI_eq_some sqrt w crossings timeout fuel c s c4 s5 h
  obtain ⟨-, -, hV, hI, -⟩ := (calcVI_calibration w crossings timeout fuel c s c2 c4 s2 s4 _
    hsync hmain).2
  obtain ⟨hsV, hsI⟩ := calcVI_sums_nonneg w crossings timeout fuel c s c2 c4 s2 s4 _ hsync hmain
  have hn4 : (calibrate sqrt s4).numberOfSamples = s4.numberOfSamples := rfl
  rw [hn4] at hn ⊢
  have hne : ((s4.numberOfSamples : Int)) ≠ 0 := by exact_mod_cast Nat.pos_iff_ne_zero.mp hn
  have hpos : (0 : α) < (s4.numberOfSamples : α) := by exact_mod_cast hn
  have hVR : s4.VCAL * ((3300 / 1000) / 4096) = s.VCAL * 3.3 / 4096 := by
    rw [← hV]; norm_num; ring
  have hIR : s4.ICAL * ((3300 / 1000) / 4096) = s.ICAL * 3.3 / 4096 := by
    rw [← hI]; norm_num; ring
  have eV : (calibrate sqrt s4).Vrms = (if s4.sumV / (s4.numberOfSamples : α) < 0 then none
      else some (s.VCAL * 3.3 / 4096 * sqrt (s4.sumV / (s4.numberOfSamples : α)))) := by
    simp only [calibrate, divCount, hne, if_false, fsqrt, Int.cast_natCast, hVR]
    split <;> simp [fmul]
  have eI : (calibrate sqrt s4).Irms = (if s4.sumI / (s4.numberOfSamples : α) < 0 then none
      else some (s.ICAL * 3.3 / 4096 * sqrt (s4.sumI / (s4.numberOfSamples : α)))) := by
    simp only [calibrate, divCount, hne, if_false, fsqrt, Int.cast_natCast, hIR]
    split <;> simp [fmul]
  have eP : (calibrate sqrt s4).realPower = some ((s.VCAL * 3.3 / 4096) *
      (s.ICAL * 3.3 / 4096) * s4.sumP / (s4.numberOfSamples : α)) := by
    simp only [calibrate, divCount, hne, if_false, Int.cast_natCast, hVR, hIR]
  have eA : (calibrate sqrt s4).apparentPower =
      fmul (calibrate sqrt s4).Vrms (calibrate sqrt s4).Irms := rfl
  have eF : (calibrate sqrt s4).powerFactor =
      fdiv (calibrate sqrt s4).realPower (calibrate sqrt s4).apparentPower := rfl
  refine ⟨c2, s2, s4, hsync, hmain, rfl, eV, eI, eP, eA, eF, fun h0V h0I => ?_⟩
  have hqV : ¬ s4.sumV / (s4.numberOfSamples : α) < 0 :=
    not_lt.mpr (div_nonneg (hsV h0V) (le_of_lt hpos))
  have hqI : ¬ s4.sumI / (s4.numberOfSamples : α) < 0 :=
    not_lt.mpr (div_nonneg (hsI h0I) (le_of_lt hpos))
  rw [if_neg hqV] at eV
  rw [if_neg hqI] at eI
  refine ⟨eV, eI, by rw [eA, eV, eI]; rfl, fun hne0 => ?_⟩
  rw [eF, eP, eA, eV, eI]
  simp only [fmul, fdiv, if_neg hne0]

/-- C5 (witness): the Result formulas at a two-sample cycle of the configured object. -/
theorem calcVI_result_witness :
    ∃ r, ∃ s4 : EnergyMonitor ℚ, calcVI sqrtQ edgeWorld 1 3 20 ⟨0, 0⟩ (configured : EnergyMonitor ℚ) = some r ∧
      r.2.numberOfSamples = 2 ∧
      r.2.realPower = some ((250 * 3.3 / 4096) * (30 * 3.3 / 4096) * s4.sumP / 2) ∧
      r.2.Vrms = some (250 * 3.3 / 4096 * sqrtQ (s4.sumV / 2)) := by
  have hs : (calcVI sqrtQ edgeWorld 1 3 20 ⟨0, 0⟩ (configured : EnergyMonitor ℚ)).map
      (fun p => p.2.numberOfSamples) = some 2 := by decide!
  obtain ⟨⟨c4, s5⟩, h5⟩ := Option.isSome_iff_exists.mp
    (show (calcVI sqrtQ edgeWorld 1 3 20 ⟨0, 0⟩ (configured : EnergyMonitor ℚ)).isSome = true by
      decide!)
  have hv : s5.numberOfSamples = 2 :=
    of_map_eq_some _ (fun p : Cursor × EnergyMonitor ℚ => p.2.numberOfSamples) _ (c4, s5) hs h5
  obtain ⟨c2, s2, s4, -, -, -, -, -, eP, -, -, hfin⟩ :=
    calcVI_result sqrtQ edgeWorld 1 3 20 ⟨0, 0⟩ configured c4 s5 h5 (by rw [hv]; decide)
  have eV := (hfin (by simp [configured, current, voltage, zeroed])
    (by simp [configured, current, voltage, zeroed])).1
  have hcal : (configured : EnergyMonitor ℚ).VCAL = 250 ∧
      (configured : EnergyMonitor ℚ).ICAL = 30 := ⟨rfl, rfl⟩
  rw [hv, hcal.1, hcal.2] at eP
  rw [hv, hcal.1] at eV
  exact ⟨(c4, s5), s4, h5, hv, by simpa using eP, by simpa using eV⟩

/-- C6: after a returning cycle that took `n > 128` samples, for each of the last 128
samples `j` (`n - 128 <= j < n`) slot `(j + 1) % 128` of `Vwaveform` and of `Iwaveform`
holds the compressed filtered value of sample `j`; every slot holds one of these
samples, different samples of the window lie in different slots, and consecutive
samples lie in slots consecutive modulo 128. -/
theorem calcVI_waveform_last128 (sqrt : α → α) (w : World) (crossings : Int)
    (timeout fuel : Nat) (c : Cursor) (s : EnergyMonitor α) (c4 : Cursor)
    (s5 : EnergyMonitor α)
    (h : calcVI sqrt w crossings timeout fuel c s = some (c4, s5))
    (hn : 128 < s5.numberOfSamples) :
    ∃ c2 s2, synchronize w timeout fuel c s = some (c2, s2) ∧
      (∀ (j : Nat) (hj : (j + 1) % 128 < 128), j < s5.numberOfSamples →
        s5.numberOfSamples ≤ j + 128 →
        s5.Vwaveform ⟨(j + 1) % 128, hj⟩ = toChar
            (((mainIter w (j + 1) ({ c2 with ticks := c2.ticks + 1 }, s2)).2.filteredV + 2048)
              / 16) ∧
          s5.Iwaveform ⟨(j + 1) % 128, hj⟩ = toChar
            (((mainIter w (j + 1) ({ c2 with ticks := c2.ticks + 1 }, s2)).2.filteredI + 1024)
              / 8)) ∧
      (∀ i : Fin 128, ∃ j, j < s5.numberOfSamples ∧ s5.numberOfSamples ≤ j + 128 ∧
        (j + 1) % 128 = i.val ∧
        s5.Vwaveform i = toChar
            (((mainIter w (j + 1) ({ c2 with ticks := c2.ticks + 1 }, s2)).2.filteredV + 2048)
              / 16) ∧
          s5.Iwaveform i = toChar
            (((mainIter w (j + 1) ({ c2 with ticks := c2.ticks + 1 }, s2)).2.filteredI + 1024)
              / 8)) ∧
      (∀ j k : Nat, j < s5.numberOfSamples → s5.numberOfSamples ≤ j + 128 →
        k < s5.numberOfSamples → s5.numberOfSamples ≤ k + 128 →
        (j + 1) % 128 = (k + 1) % 128 → j = k) ∧
      (∀ j : Nat, (j + 1 + 1) % 128 = ((j + 1) % 128 + 1) % 128) := by
  obtain ⟨c2, s2, s4, hsync, hmain, rfl⟩ := calcVI_eq_some sqrt w crossings timeout fuel c s c4 s5 h
  obtain ⟨n, hs4⟩ := mainLoop_eq_mainIter w crossings _ timeout fuel _ s2 c4 s4 hmain
  have h2 : s2.numberOfSamples = 0 := synchronize_numberOfSamples w timeout fuel c s c2 s2 hsync
  have hcount : s4.numberOfSamples = n := by
    rw [hs4, mainIter_numberOfSamples]
    show s2.numberOfSamples + n = n
    rw [h2]; omega
  have hn5 : (calibrate sqrt s4).numberOfSamples = n := hcount
  have hV : (calibrate sqrt s4).Vwaveform =
      (mainIter w n ({ c2 with ticks := c2.ticks + 1 }, s2)).2.Vwaveform := by rw [← hs4]; rfl
  have hI : (calibrate sqrt s4).Iwaveform =
      (mainIter w n ({ c2 with ticks := c2.ticks + 1 }, s2)).2.Iwaveform := by rw [← hs4]; rfl
  rw [hn5] at hn ⊢
  rw [hV, hI]
  have hall := mainIter_last128 w ({ c2 with ticks := c2.ticks + 1 }, s2) h2 n
  refine ⟨c2, s2, hsync, fun j hj hlt hle => hall j hj hlt hle, fun i => ?_,
    fun j k _ _ _ _ hjk => by omega, fun j => by omega⟩
  have hi := i.isLt
  have hmod : (n - 128 + (i.val + 128 - (n - 128 + 1) % 128) % 128 + 1) % 128 = i.val := by
    omega
  have hj : (n - 128 + (i.val + 128 - (n - 128 + 1) % 128) % 128 + 1) % 128 < 128 := by omega
  have hslot := hall (n - 128 + (i.val + 128 - (n - 128 + 1) % 128) % 128) hj
    (by omega) (by omega)
  have hfin : i = ⟨(n - 128 + (i.val + 128 - (n - 128 + 1) % 128) % 128 + 1) % 128, hj⟩ :=
    Fin.ext hmod.symm
  refine ⟨n - 128 + (i.val + 128 - (n - 128 + 1) % 128) % 128, by omega, by omega, hmod, ?_⟩
  rw [← hfin] at hslot
  exact hslot

/-- C6 (witness): a cycle of 130 samples of the configured object. -/
theorem calcVI_waveform_last128_witness :
    ∃ r, ∃ c2 : Cursor, ∃ s2 : EnergyMonitor ℚ,
      calcVI sqrtQ edgeWorld 2 131 140 ⟨0, 0⟩ (configured : EnergyMonitor ℚ) = some r ∧
      r.2.numberOfSamples = 130 ∧
      ∀ i : Fin 128, ∃ j, j < 130 ∧ 2 ≤ j ∧ (j + 1) % 128 = i.val ∧
        r.2.Vwaveform i = toChar
          (((mainIter edgeWorld (j + 1) (c2, s2)).2.filteredV + 2048) / 16) := by
  have hs : (calcVI sqrtQ edgeWorld 2 131 140 ⟨0, 0⟩ (configured : EnergyMonitor ℚ)).map
      (fun p => p.2.numberOfSamples) = some 130 := by decide!
  obtain ⟨⟨c4, s5⟩, h5⟩ := Option.isSome_iff_exists.mp
    (show (calcVI sqrtQ edgeWorld 2 131 140 ⟨0, 0⟩
      (configured : EnergyMonitor ℚ)).isSome = true by decide!)
  have hv : s5.numberOfSamples = 130 :=
    of_map_eq_some _ (fun p : Cursor × EnergyMonitor ℚ => p.2.numberOfSamples) _ (c4, s5) hs h5
  obtain ⟨c2, s2, -, -, hslots, -, -⟩ :=
    calcVI_waveform_last128 sqrtQ edgeWorld 2 131 140 ⟨0, 0⟩ configured c4 s5 h5
      (by rw [hv]; decide)
  refine ⟨(c4, s5), { c2 with ticks := c2.ticks + 1 }, s2, h5, hv, fun i => ?_⟩
  obtain ⟨j, hj1, hj2, hj3, hj4, -⟩ := hslots i
  rw [hv] at hj1 hj2
  exact ⟨j, hj1, by omega, hj3, hj4⟩

/-- C7 (counterexample): after a cycle of exactly one sample, slot 0 of `Vwaveform` still
holds its entry content 0, and the compressed first sample, 127, is in slot 1. -/
theorem calcVI_first_sample_slot :
    (calcVI sqrtQ edgeWorld 1 2 20 ⟨0, 0⟩ (configured : EnergyMonitor ℚ)).map
        (fun p => (p.2.numberOfSamples,
          [p.2.Vwaveform 0, p.2.Vwaveform 1, toChar ((p.2.filteredV + 2048) / 16)])) =
      some (1, [some 0, some 127, some 127]) ∧
    (configured : EnergyMonitor ℚ).Vwaveform 0 = some 0 := by
  decide!

/-- C7 (as amended): the main-loop iteration that takes the k-th sample of a cycle
(k = 0, 1, 2, ...) finds the count at `k`, increments it as its first step and writes the
compressed filtered voltage and current at index `numberOfSamples % 128 = (k + 1) % 128`
of the two waveform arrays, leaving every other slot as it was; the first sample of a
cycle goes to slot 1. -/
theorem mainLoop_writes_next_slot (w : World) (timeout fuel : Nat) (c : Cursor)
    (s : EnergyMonitor α) (c2 : Cursor) (s2 : EnergyMonitor α)
    (h : synchronize w timeout fuel c s = some (c2, s2)) (k : Nat)
    (hk : (k + 1) % 128 < 128) :
    (mainIter w k ({ c2 with ticks := c2.ticks + 1 }, s2)).2.numberOfSamples = k ∧
      (mainIter w (k + 1) ({ c2 with ticks := c2.ticks + 1 }, s2)).2.numberOfSamples = k + 1 ∧
      (mainIter w (k + 1) ({ c2 with ticks := c2.ticks + 1 }, s2)).2.Vwaveform
          ⟨(k + 1) % 128, hk⟩ = toChar
        (((mainIter w (k + 1) ({ c2 with ticks := c2.ticks + 1 }, s2)).2.filteredV + 2048)
          / 16) ∧
      (mainIter w (k + 1) ({ c2 with ticks := c2.ticks + 1 }, s2)).2.Iwaveform
          ⟨(k + 1) % 128, hk⟩ = toChar
        (((mainIter w (k + 1) ({ c2 with ticks := c2.ticks + 1 }, s2)).2.filteredI + 1024)
          / 8) ∧
      ∀ i : Fin 128, i.val ≠ (k + 1) % 128 →
        (mainIter w (k + 1) ({ c2 with ticks := c2.ticks + 1 }, s2)).2.Vwaveform i =
            (mainIter w k ({ c2 with ticks := c2.ticks + 1 }, s2)).2.Vwaveform i ∧
          (mainIter w (k + 1) ({ c2 with ticks := c2.ticks + 1 }, s2)).2.Iwaveform i =
            (mainIter w k ({ c2 with ticks := c2.ticks + 1 }, s2)).2.Iwaveform i := by
  have h2 : s2.numberOfSamples = 0 := synchronize_numberOfSamples w timeout fuel c s c2 s2 h
  have hcount : ∀ n, (mainIter w n ({ c2 with ticks := c2.ticks + 1 }, s2)).2.numberOfSamples
      = n := by
    intro n
    rw [mainIter_numberOfSamples]
    show s2.numberOfSamples + n = n
    rw [h2]; omega
  refine ⟨hcount k, hcount (k + 1), ?_, ?_, fun i hi => ⟨?_, ?_⟩⟩
  · rw [mainIter_Vwaveform, hcount k]
    exact writeSlot_same _ _ _ hk
  · rw [mainIter_Iwaveform, hcount k]
    exact writeSlot_same _ _ _ hk
  · rw [mainIter_Vwaveform, hcount k]
    exact writeSlot_other _ _ _ _ hi
  · rw [mainIter_Iwaveform, hcount k]
    exact writeSlot_other _ _ _ _ hi

/-- C7 (witness): the first sample of a cycle of the configured object goes to slot 1
and leaves slot 0 as it was. -/
theorem mainLoop_writes_next_slot_witness :
    ∃ c2 s2, synchronize edgeWorld 2 20 ⟨0, 0⟩ (configured : EnergyMonitor ℚ) = some (c2, s2) ∧
      (mainIter edgeWorld 1 ({ c2 with ticks := c2.ticks + 1 }, s2)).2.Vwaveform 1 = toChar
        (((mainIter edgeWorld 1 ({ c2 with ticks := c2.ticks + 1 }, s2)).2.filteredV + 2048)
          / 16) ∧
      (mainIter edgeWorld 1 ({ c2 with ticks := c2.ticks + 1 }, s2)).2.Vwaveform 0 =
        s2.Vwaveform 0 := by
  obtain ⟨⟨c2, s2⟩, h2⟩ := Option.isSome_iff_exists.mp
    (show (synchronize edgeWorld 2 20 ⟨0, 0⟩ (configured : EnergyMonitor ℚ)).isSome = true by
      decide!)
  obtain ⟨-, -, hV, -, hrest⟩ :=
    mainLoop_writes_next_slot edgeWorld 2 20 ⟨0, 0⟩ configured c2 s2 h2 0 (by decide)
  exact ⟨c2, s2, h2, hV, (hrest 0 (by decide)).1⟩

/-- C8: after `calcVI` returns `sumV = 0`, `sumI = 0` and `sumP = 0`, whatever the entry
state and the inputs; and after `calcIrms` returns `sumI = 0`. -/
theorem calcVI_calcIrms_reset (sqrt : α → α) (w : World) (crossings : Int)
    (timeout fuel : Nat) (c : Cursor) (s : EnergyMonitor α) (c4 : Cursor)
    (s5 : EnergyMonitor α) (h : calcVI sqrt w crossings timeout fuel c s = some (c4, s5)) :
    s5.sumV = 0 ∧ s5.sumI = 0 ∧ s5.sumP = 0 ∧
      ∀ (w1 : World) (N : Int) (c0 : Cursor) (t : EnergyMonitor α),
        (calcIrms sqrt w1 N c0 t).1.2.sumI = 0 := by
  obtain ⟨hV, hI, hP⟩ := calcVI_sums_reset sqrt w crossings timeout fuel c s c4 s5 h
  exact ⟨hV, hI, hP, fun _ _ _ _ => rfl⟩

/-- C8 (witness): the sums after a two-sample cycle of the configured object, and
after `calcIrms(5)` on it. -/
theorem calcVI_calcIrms_reset_witness :
    ∃ r, calcVI sqrtQ edgeWorld 1 3 20 ⟨0, 0⟩ (configured : EnergyMonitor ℚ) = some r ∧
      r.2.sumV = 0 ∧ r.2.sumI = 0 ∧ r.2.sumP = 0 ∧
      (calcIrms sqrtQ edgeWorld 5 ⟨0, 0⟩ (configured : EnergyMonitor ℚ)).1.2.sumI = 0 := by
  obtain ⟨⟨c4, s5⟩, h5⟩ := Option.isSome_iff_exists.mp
    (show (calcVI sqrtQ edgeWorld 1 3 20 ⟨0, 0⟩ (configured : EnergyMonitor ℚ)).isSome = true by
      decide!)
  obtain ⟨hV, hI, hP, hirms⟩ :=
    calcVI_calcIrms_reset sqrtQ edgeWorld 1 3 20 ⟨0, 0⟩ configured c4 s5 h5
  exact ⟨(c4, s5), h5, hV, hI, hP, hirms edgeWorld 5 ⟨0, 0⟩ configured⟩

/-- C9: let `s1` be the state left by a completed cycle.  The Result and sample count of
the next cycle are those of the same cycle run from any state `t` with the same pins,
calibration and FilterState and zero sums, whatever else `t` holds (counters, Result
fields, waveform arrays, saved last values).  And if the next cycle returns `s2` with
the FilterState it started from, and the world answers from its end as it did from its
start, then the cycle after it returns the same Result and sample count. -/
theorem calcVI_no_leakage (sqrt : α → α) (w0 : World) (crossings0 : Int)
    (timeout0 fuel0 : Nat) (c0 : Cursor) (s0 : EnergyMonitor α) (c1 : Cursor)
    (s1 : EnergyMonitor α)
    (hprev : calcVI sqrt w0 crossings0 timeout0 fuel0 c0 s0 = some (c1, s1)) :
    (∀ t : EnergyMonitor α, SameCalibration s1 t → SameFilterState s1 t →
        t.sumV = 0 → t.sumI = 0 → t.sumP = 0 →
        ∀ (w : World) (crossings : Int) (timeout fuel : Nat) (c : Cursor),
          (calcVI sqrt w crossings timeout fuel c s1).map (fun r => resultOf r.2) =
            (calcVI sqrt w crossings timeout fuel c t).map (fun r => resultOf r.2)) ∧
      (∀ (w : World) (crossings : Int) (timeout fuel : Nat) (c2 : Cursor)
        (s2 : EnergyMonitor α),
        calcVI sqrt w crossings timeout fuel c1 s1 = some (c2, s2) →
        SameFilterState s1 s2 → SameFuture w c1 w c2 →
        ∃ c3 s3, calcVI sqrt w crossings timeout fuel c2 s2 = some (c3, s3) ∧
          resultOf s3 = resultOf s2) := by
  obtain ⟨h1V, h1I, h1P⟩ := calcVI_sums_reset sqrt w0 crossings0 timeout0 fuel0 c0 s0 c1 s1 hprev
  constructor
  · intro t hcal hfs htV htI htP w crossings timeout fuel c
    have hst : SameStart s1 t :=
      ⟨hcal, hfs, by rw [h1V, htV], by rw [h1I, htI], by rw [h1P, htP]⟩
    rcases calcVI_lockstep sqrt w w crossings timeout fuel c c s1 t (sameFuture_refl w c) hst
      with h | h
    · rw [h.1, h.2]
    · obtain ⟨x, y, hx, hy, -, hres, -⟩ := h
      rw [hx, hy]
      simp only [Option.map_some', hres]
  · intro w crossings timeout fuel c2 s2 hnext hfs hw
    obtain ⟨h2V, h2I, h2P⟩ := calcVI_sums_reset sqrt w crossings timeout fuel c1 s1 c2 s2 hnext
    have hcal := calcVI_sameCalibration sqrt w crossings timeout fuel c1 s1 c2 s2 hnext
    have hst : SameStart s1 s2 :=
      ⟨hcal, hfs, by rw [h1V, h2V], by rw [h1I, h2I], by rw [h1P, h2P]⟩
    rcases calcVI_lockstep sqrt w w crossings timeout fuel c1 c2 s1 s2 hw hst with h | h
    · rw [hnext] at h
      exact absurd h.1 (by simp)
    · obtain ⟨x, ⟨c3, s3⟩, hx, hy, -, hres, -⟩ := h
      rw [hnext] at hx
      simp only [Option.some.injEq] at hx
      subst hx
      exact ⟨c3, s3, hy, hres.symm⟩

/-- C9 (witness): three consecutive cycles of an object in the periodic regime of
`steadyWorld`; the third returns the Result of the second, and the second returns the
same Result when the counters, a Result field and a waveform array are overwritten
before it starts. -/
theorem calcVI_no_leakage_witness :
    ∃ r1 r2 r3, calcVI sqrtQ steadyWorld 1 10 20 ⟨0, 0⟩ (steady : EnergyMonitor ℚ) = some r1 ∧
      calcVI sqrtQ steadyWorld 1 10 20 r1.1 r1.2 = some r2 ∧
      calcVI sqrtQ steadyWorld 1 10 20 r2.1 r2.2 = some r3 ∧
      resultOf r3.2 = resultOf r2.2 ∧
      (calcVI sqrtQ steadyWorld 1 10 20 r1.1
          { r1.2 with crossCount := 7, numberOfSamples := 99, Vrms := some 1,
                      Vwaveform := fun _ => none }).map (fun r => resultOf r.2) =
        some (resultOf r2.2) := by
  have e1 : (calcVI sqrtQ steadyWorld 1 10 20 ⟨0, 0⟩ (steady : EnergyMonitor ℚ)).map
      (fun p => (p.1, p.2.sampleV, p.2.sampleI, p.2.filteredV, p.2.filteredI)) =
      some (⟨9, 5⟩, 2299, 2299, 249, 249) := by decide!
  have e2 : ((calcVI sqrtQ steadyWorld 1 10 20 ⟨0, 0⟩ (steady : EnergyMonitor ℚ)).bind
      (fun r => calcVI sqrtQ steadyWorld 1 10 20 r.1 r.2)).map
      (fun p => (p.1, p.2.sampleV, p.2.sampleI, p.2.filteredV, p.2.filteredI)) =
      some (⟨18, 10⟩, 2299, 2299, 249, 249) := by decide!
  obtain ⟨⟨c1, s1⟩, h1⟩ := Option.isSome_iff_exists.mp
    (show (calcVI sqrtQ steadyWorld 1 10 20 ⟨0, 0⟩ (steady : EnergyMonitor ℚ)).isSome = true by
      decide!)
  rw [h1] at e1 e2
  simp only [Option.map_some', Option.some.injEq, Prod.mk.injEq, Option.some_bind] at e1 e2
  obtain ⟨hc1, a1, a2, a3, a4⟩ := e1
  obtain ⟨⟨c2, s2⟩, h2⟩ : ∃ r, calcVI sqrtQ steadyWorld 1 10 20 c1 s1 = some r := by
    cases hcase : calcVI sqrtQ steadyWorld 1 10 20 c1 s1 with
    | none => rw [hcase] at e2; simp at e2
    | some r => exact ⟨r, rfl⟩
  rw [h2] at e2
  simp only [Option.map_some', Option.some.injEq, Prod.mk.injEq] at e2
  obtain ⟨hc2, b1, b2, b3, b4⟩ := e2
  obtain ⟨hsame, hnext⟩ := calcVI_no_leakage sqrtQ steadyWorld 1 10 20 ⟨0, 0⟩ steady c1 s1 h1
  have hfs : SameFilterState s1 s2 :=
    ⟨by rw [a1, b1], by rw [a2, b2], by rw [a3, b3], by rw [a4, b4]⟩
  have hw : SameFuture steadyWorld c1 steadyWorld c2 := by
    rw [hc1, hc2]
    refine ⟨fun k p => ?_, fun k => rfl⟩
    have hk : (18 + k) % 9 = (9 + k) % 9 := by omega
    simp only [steadyWorld, hk]
  obtain ⟨c3, s3, h3, hres⟩ := hnext steadyWorld 1 10 20 c2 s2 h2 hfs hw
  have hover := hsame
    { s1 with crossCount := 7, numberOfSamples := 99, Vrms := some 1,
              Vwaveform := fun _ => none }
    ⟨rfl, rfl, rfl, rfl, rfl⟩ ⟨rfl, rfl, rfl, rfl⟩
    (calcVI_sums_reset sqrtQ steadyWorld 1 10 20 ⟨0, 0⟩ steady c1 s1 h1).1
    (calcVI_sums_reset sqrtQ steadyWorld 1 10 20 ⟨0, 0⟩ steady c1 s1 h1).2.1
    (calcVI_sums_reset sqrtQ steadyWorld 1 10 20 ⟨0, 0⟩ steady c1 s1 h1).2.2
    steadyWorld 1 10 20 c1
  rw [h2] at hover
  exact ⟨(c1, s1), (c2, s2), (c3, s3), h1, h2, h3, hres, hover.symm⟩

/-- C10: `calcVI` leaves the FilterState as it found it until the first filter update.
The counter reset and the seek-near-zero loop change nothing but the counters and
`startV`, so all eight FilterState fields are those of the entry state `s`, and the
first pass of the rising-edge loop, which is the next thing `calcVI` runs, computes
`filteredV = 0.996 * (s.filteredV + first new raw voltage - s.sampleV)` and likewise
`filteredI`. -/
theorem calcVI_filterState_persists (w : World) (timeout fuel : Nat) (c : Cursor)
    (s : EnergyMonitor α) (c1 : Cursor) (s1 : EnergyMonitor α)
    (h : seekNearZero w (millisAt w c.ticks) timeout fuel { c with ticks := c.ticks + 1 }
      (resetCounters s) = some (c1, s1)) :
    s1 = { s with crossCount := 0, numberOfSamples := 0, startV := s1.startV } ∧
      (s1.sampleV = s.sampleV ∧ s1.lastSampleV = s.lastSampleV ∧
        s1.filteredV = s.filteredV ∧ s1.lastFilteredV = s.lastFilteredV ∧
        s1.sampleI = s.sampleI ∧ s1.lastSampleI = s.lastSampleI ∧
        s1.filteredI = s.filteredI ∧ s1.lastFilteredI = s.lastFilteredI) ∧
      synchronize w timeout fuel c s = awaitRisingEdge w fuel c1 s1 ∧
      (∀ k, awaitRisingEdge w (k + 1) c1 s1 =
        if 0 < (edgeBody w c1 s1).2.filteredV ∧ (edgeBody w c1 s1).2.lastFilteredV < 0
        then some (edgeBody w c1 s1)
        else awaitRisingEdge w k (edgeBody w c1 s1).1 (edgeBody w c1 s1).2) ∧
      (edgeBody w c1 s1).2.filteredV =
        0.996 * (s.filteredV + (w.analogRead c1.reads s.inPinV : α) - (s.sampleV : α)) ∧
      (edgeBody w c1 s1).2.filteredI =
        0.996 * (s.filteredI + (w.analogRead (c1.reads + 1) s.inPinI : α) - (s.sampleI : α)) := by
  have hs1 := seekNearZero_startV w _ _ _ _ _ _ _ h
  have hsync : synchronize w timeout fuel c s = awaitRisingEdge w fuel c1 s1 := by
    simp only [synchronize, h]
  refine ⟨hs1, ?_, hsync, fun k => rfl, ?_, ?_⟩
  · rw [hs1]; exact ⟨rfl, rfl, rfl, rfl, rfl, rfl, rfl, rfl⟩
  · rw [hs1]; rfl
  · rw [hs1]; rfl

/-- C10 (witness): the first filter update of a cycle of the object `steady`, whose
FilterState before the cycle is raw 2299 and filtered 249 on both channels. -/
theorem calcVI_filterState_persists_witness :
    ∃ c1 s1, seekNearZero steadyWorld (millisAt steadyWorld 0) 10 20 ⟨0, 1⟩
        (resetCounters (steady : EnergyMonitor ℚ)) = some (c1, s1) ∧
      s1.filteredV = 249 ∧ s1.sampleV = 2299 ∧
      (edgeBody steadyWorld c1 s1).2.filteredV =
        0.996 * (249 + (steadyWorld.analogRead c1.reads 0 : ℚ) - 2299) := by
  obtain ⟨⟨c1, s1⟩, h1⟩ := Option.isSome_iff_exists.mp
    (show (seekNearZero steadyWorld (millisAt steadyWorld 0) 10 20 ⟨0, 1⟩
      (resetCounters (steady : EnergyMonitor ℚ))).isSome = true by decide!)
  obtain ⟨-, hfs, -, -, hV, -⟩ :=
    calcVI_filterState_persists steadyWorld 10 20 ⟨0, 0⟩ steady c1 s1 h1
  refine ⟨c1, s1, h1, hfs.2.2.1, hfs.1, ?_⟩
  rw [hV]
  simp [steady, configured, current, voltage, zeroed]

/-- C11: in every pass of the rising-edge loop and of the main loop of `calcVI`, and of
the loop of `calcIrms`, the new filtered value of a channel is
`0.996 * (previous filtered + new raw - previous raw)` of that channel, the previous raw
and filtered values are saved as `lastSample` and `lastFiltered`, both channels use the
same expression, and the new filtered voltage is the same whatever the current-channel
fields hold (and the new filtered current whatever the voltage-channel fields hold). -/
theorem filter_step (w : World) (c : Cursor) (s : EnergyMonitor α) :
    ((edgeBody w c s).2.sampleV = w.analogRead c.reads s.inPinV ∧
      (edgeBody w c s).2.sampleI = w.analogRead (c.reads + 1) s.inPinI ∧
      (edgeBody w c s).2.filteredV =
        0.996 * (s.filteredV + ((edgeBody w c s).2.sampleV : α) - (s.sampleV : α)) ∧
      (edgeBody w c s).2.filteredI =
        0.996 * (s.filteredI + ((edgeBody w c s).2.sampleI : α) - (s.sampleI : α)) ∧
      (edgeBody w c s).2.lastSampleV = s.sampleV ∧
      (edgeBody w c s).2.lastFilteredV = s.filteredV ∧
      (edgeBody w c s).2.lastSampleI = s.sampleI ∧
      (edgeBody w c s).2.lastFilteredI = s.filteredI) ∧
    ((mainBody w c s).2.sampleV = w.analogRead c.reads s.inPinV ∧
      (mainBody w c s).2.sampleI = w.analogRead (c.reads + 1) s.inPinI ∧
      (mainBody w c s).2.filteredV =
        0.996 * (s.filteredV + ((mainBody w c s).2.sampleV : α) - (s.sampleV : α)) ∧
      (mainBody w c s).2.filteredI =
        0.996 * (s.filteredI + ((mainBody w c s).2.sampleI : α) - (s.sampleI : α)) ∧
      (mainBody w c s).2.lastSampleV = s.sampleV ∧
      (mainBody w c s).2.lastFilteredV = s.filteredV ∧
      (mainBody w c s).2.lastSampleI = s.sampleI ∧
      (mainBody w c s).2.lastFilteredI = s.filteredI) ∧
    ((irmsBody w c s).2.sampleI = w.analogRead c.reads s.inPinI ∧
      (irmsBody w c s).2.filteredI =
        0.996 * (s.filteredI + ((irmsBody w c s).2.sampleI : α) - (s.sampleI : α)) ∧
      (irmsBody w c s).2.lastSampleI = s.sampleI ∧
      (irmsBody w c s).2.lastFilteredI = s.filteredI) ∧
    (∀ (p : Int) (a b : Nat) (x y u v : α),
      (edgeBody w c { s with inPinI := p, sampleI := a, lastSampleI := b, filteredI := x,
                             lastFilteredI := y, sumI := u, sqI := v }).2.filteredV = (edgeBody w c s).2.filteredV ∧
      (mainBody w c { s with inPinI := p, sampleI := a, lastSampleI := b, filteredI := x,
                             lastFilteredI := y, sumI := u, sqI := v }).2.filteredV =
        (mainBody w c s).2.filteredV) ∧
    (∀ (p : Int) (a b : Nat) (x y u v : α),
      (edgeBody w c { s with inPinV := p, sampleV := a, lastSampleV := b, filteredV := x,
                             lastFilteredV := y, sumV := u, sqV := v }).2.filteredI = (edgeBody w c s).2.filteredI ∧
      (mainBody w c { s with inPinV := p, sampleV := a, lastSampleV := b, filteredV := x,
                             lastFilteredV := y, sumV := u, sqV := v }).2.filteredI =
        (mainBody w c s).2.filteredI ∧
      (irmsBody w c { s with inPinV := p, sampleV := a, lastSampleV := b, filteredV := x,
                             lastFilteredV := y, sumV := u, sqV := v }).2.filteredI =
        (irmsBody w c s).2.filteredI) := by
  refine ⟨⟨rfl, rfl, rfl, rfl, rfl, rfl, rfl, rfl⟩, ⟨rfl, rfl, rfl, rfl, rfl, rfl, rfl, rfl⟩,
    ⟨rfl, rfl, rfl, rfl⟩, fun _ _ _ _ _ _ _ => ⟨rfl, rfl⟩, fun _ _ _ _ _ _ _ => ⟨rfl, rfl, rfl⟩⟩

/-- C13: `calcIrms` changes only the current channel.  The final state is the entry
state with new `lastSampleI`, `sampleI`, `lastFilteredI`, `filteredI`, `sqI`, `sumI` and
`Irms`; in particular the voltage FilterState, `sumV`, `sumP`, the counters, both
waveform arrays, the pins and calibration constants and the other four Result fields
are unchanged.  It never asks the time, makes `N` conversions, and its outcome is the
same in every world that answers alike on the current pin: no other pin is read. -/
theorem calcIrms_frame (sqrt : α → α) (w : World) (N : Int) (c : Cursor)
    (s : EnergyMonitor α) :
    (calcIrms sqrt w N c s).1.2 =
        { s with
          lastSampleI := (calcIrms sqrt w N c s).1.2.lastSampleI
          sampleI := (calcIrms sqrt w N c s).1.2.sampleI
          lastFilteredI := (calcIrms sqrt w N c s).1.2.lastFilteredI
          filteredI := (calcIrms sqrt w N c s).1.2.filteredI
          sqI := (calcIrms sqrt w N c s).1.2.sqI
          sumI := (calcIrms sqrt w N c s).1.2.sumI
          Irms := (calcIrms sqrt w N c s).1.2.Irms } ∧
      ((calcIrms sqrt w N c s).1.2.sampleV = s.sampleV ∧
        (calcIrms sqrt w N c s).1.2.lastSampleV = s.lastSampleV ∧
        (calcIrms sqrt w N c s).1.2.filteredV = s.filteredV ∧
        (calcIrms sqrt w N c s).1.2.lastFilteredV = s.lastFilteredV ∧
        (calcIrms sqrt w N c s).1.2.sumV = s.sumV ∧
        (calcIrms sqrt w N c s).1.2.sumP = s.sumP ∧
        (calcIrms sqrt w N c s).1.2.crossCount = s.crossCount ∧
        (calcIrms sqrt w N c s).1.2.numberOfSamples = s.numberOfSamples ∧
        (calcIrms sqrt w N c s).1.2.Vwaveform = s.Vwaveform ∧
        (calcIrms sqrt w N c s).1.2.Iwaveform = s.Iwaveform) ∧
      (SameCalibration s (calcIrms sqrt w N c s).1.2 ∧
        (calcIrms sqrt w N c s).1.2.Vrms = s.Vrms ∧
        (calcIrms sqrt w N c s).1.2.realPower = s.realPower ∧
        (calcIrms sqrt w N c s).1.2.apparentPower = s.apparentPower ∧
        (calcIrms sqrt w N c s).1.2.powerFactor = s.powerFactor) ∧
      (calcIrms sqrt w N c s).1.1.ticks = c.ticks ∧
      (calcIrms sqrt w N c s).1.1.reads = c.reads + N.toNat ∧
      (∀ w2 : World, (∀ k, w2.analogRead k s.inPinI = w.analogRead k s.inPinI) →
        calcIrms sqrt w2 N c s = calcIrms sqrt w N c s) := by
  have hframe : ∀ (k : Nat) (c1 : Cursor) (t : EnergyMonitor α),
      (irmsLoop w k c1 t).2 =
        { t with
          lastSampleI := (irmsLoop w k c1 t).2.lastSampleI
          sampleI := (irmsLoop w k c1 t).2.sampleI
          lastFilteredI := (irmsLoop w k c1 t).2.lastFilteredI
          filteredI := (irmsLoop w k c1 t).2.filteredI
          sqI := (irmsLoop w k c1 t).2.sqI
          sumI := (irmsLoop w k c1 t).2.sumI } := by
    intro k
    induction k with
    | zero => intro c1 t; rfl
    | succ n ih =>
      intro c1 t
      show (irmsLoop w n (irmsBody w c1 t).1 (irmsBody w c1 t).2).2 = _
      rw [ih]
      rfl
  have hrec : (calcIrms sqrt w N c s).1.2 =
      { s with
        lastSampleI := (calcIrms sqrt w N c s).1.2.lastSampleI
        sampleI := (calcIrms sqrt w N c s).1.2.sampleI
        lastFilteredI := (calcIrms sqrt w N c s).1.2.lastFilteredI
        filteredI := (calcIrms sqrt w N c s).1.2.filteredI
        sqI := (calcIrms sqrt w N c s).1.2.sqI
        sumI := (calcIrms sqrt w N c s).1.2.sumI
        Irms := (calcIrms sqrt w N c s).1.2.Irms } := by
    simp only [calcIrms]
    rw [hframe]
  have hworld : ∀ w2 : World, (∀ k, w2.analogRead k s.inPinI = w.analogRead k s.inPinI) →
      ∀ (k : Nat) (c1 : Cursor) (t : EnergyMonitor α), t.inPinI = s.inPinI →
        irmsLoop w2 k c1 t = irmsLoop w k c1 t := by
    intro w2 hw k
    induction k with
    | zero => intro c1 t _; rfl
    | succ n ih =>
      intro c1 t ht
      have hb : irmsBody w2 c1 t = irmsBody w c1 t := by
        simp only [irmsBody, ht, hw]
      show irmsLoop w2 n (irmsBody w2 c1 t).1 (irmsBody w2 c1 t).2 =
        irmsLoop w n (irmsBody w c1 t).1 (irmsBody w c1 t).2
      rw [hb]
      exact ih _ _ ht
  refine ⟨hrec, ?_, ?_, (irmsLoop_cursor w N.toNat c s).2, (irmsLoop_cursor w N.toNat c s).1,
    fun w2 hw => ?_⟩
  · rw [hrec]; exact ⟨rfl, rfl, rfl, rfl, rfl, rfl, rfl, rfl, rfl, rfl⟩
  · rw [hrec]; exact ⟨⟨rfl, rfl, rfl, rfl, rfl⟩, rfl, rfl, rfl, rfl⟩
  · simp only [calcIrms, hworld w2 hw N.toNat c s rfl]

/-- C13 (witness): `calcIrms(3)` on the configured object in two worlds that differ on
the voltage pin 0 only. -/
theorem calcIrms_frame_witness :
    calcIrms sqrtQ (flatWorld id) 3 ⟨0, 0⟩ (configured : EnergyMonitor ℚ) =
      calcIrms sqrtQ edgeWorld 3 ⟨0, 0⟩ (configured : EnergyMonitor ℚ) :=
  (calcIrms_frame sqrtQ edgeWorld 3 ⟨0, 0⟩ (configured : EnergyMonitor ℚ)).2.2.2.2.2
    (flatWorld id) (fun k => by simp [flatWorld, edgeWorld, configured, current, voltage, zeroed])

/-- C14: in a returning cycle `numberOfSamples` is 0 when the main loop is entered (the
synchronizer passes do not count), every main-loop iteration adds exactly 1, and at
return it equals the number `n` of main-loop iterations executed, which made `2 * n`
conversions; so it is positive as soon as the main loop made a conversion. -/
theorem calcVI_numberOfSamples (sqrt : α → α) (w : World) (crossings : Int)
    (timeout fuel : Nat) (c : Cursor) (s : EnergyMonitor α) (c4 : Cursor)
    (s5 : EnergyMonitor α)
    (h : calcVI sqrt w crossings timeout fuel c s = some (c4, s5)) :
    ∃ c2 s2 n, synchronize w timeout fuel c s = some (c2, s2) ∧
      s2.numberOfSamples = 0 ∧
      s5 = calibrate sqrt (mainIter w n ({ c2 with ticks := c2.ticks + 1 }, s2)).2 ∧
      s5.numberOfSamples = n ∧
      c4.reads = c2.reads + 2 * n ∧
      (∀ k, (mainIter w (k + 1) ({ c2 with ticks := c2.ticks + 1 }, s2)).2.numberOfSamples =
        (mainIter w k ({ c2 with ticks := c2.ticks + 1 }, s2)).2.numberOfSamples + 1) ∧
      (∀ (c1 : Cursor) (t : EnergyMonitor α),
        (mainBody w c1 t).2.numberOfSamples = t.numberOfSamples + 1 ∧
          (edgeBody w c1 t).2.numberOfSamples = t.numberOfSamples) ∧
      (c4.reads ≠ c2.reads → 0 < s5.numberOfSamples) := by
  obtain ⟨c2, s2, s4, hsync, hmain, rfl⟩ := calcVI_eq_some sqrt w crossings timeout fuel c s c4 s5 h
  obtain ⟨n, hs4⟩ := mainLoop_eq_mainIter w crossings _ timeout fuel _ s2 c4 s4 hmain
  have h2 : s2.numberOfSamples = 0 := synchronize_numberOfSamples w timeout fuel c s c2 s2 hsync
  have hcount : s4.numberOfSamples = n := by
    rw [hs4, mainIter_numberOfSamples]
    show s2.numberOfSamples + n = n
    rw [h2]; omega
  have hreads := mainLoop_reads w crossings _ timeout fuel _ s2 c4 s4 hmain
  rw [h2, hcount] at hreads
  have hr : c4.reads = c2.reads + 2 * n := by
    have : ({ c2 with ticks := c2.ticks + 1 } : Cursor).reads = c2.reads := rfl
    rw [this] at hreads
    omega
  refine ⟨c2, s2, n, hsync, h2, by rw [hs4], hcount, hr, fun k => ?_,
    fun _ _ => ⟨rfl, rfl⟩, fun hne => ?_⟩
  · rw [mainIter_numberOfSamples, mainIter_numberOfSamples]; omega
  · show 0 < s4.numberOfSamples
    rw [hcount]; omega

/-- C14 (witness): a two-sample cycle of the configured object. -/
theorem calcVI_numberOfSamples_witness :
    ∃ r, ∃ c2 : Cursor, calcVI sqrtQ edgeWorld 1 3 20 ⟨0, 0⟩ (configured : EnergyMonitor ℚ) =
        some r ∧ r.2.numberOfSamples = 2 ∧ r.1.reads = c2.reads + 2 * 2 := by
  have hs : (calcVI sqrtQ edgeWorld 1 3 20 ⟨0, 0⟩ (configured : EnergyMonitor ℚ)).map
      (fun p => p.2.numberOfSamples) = some 2 := by decide!
  obtain ⟨⟨c4, s5⟩, h5⟩ := Option.isSome_iff_exists.mp
    (show (calcVI sqrtQ edgeWorld 1 3 20 ⟨0, 0⟩ (configured : EnergyMonitor ℚ)).isSome = true by
      decide!)
  have hv : s5.numberOfSamples = 2 :=
    of_map_eq_some _ (fun p : Cursor × EnergyMonitor ℚ => p.2.numberOfSamples) _ (c4, s5) hs h5
  obtain ⟨c2, s2, n, -, -, -, hn, hr, -⟩ :=
    calcVI_numberOfSamples sqrtQ edgeWorld 1 3 20 ⟨0, 0⟩ configured c4 s5 h5
  rw [hv] at hn
  rw [← hn] at hr
  exact ⟨(c4, s5), c2, h5, hv, hr⟩

/-- C16 (counterexample): a main-loop pass in which the filtered voltage goes from -1 to
exactly 0 leaves `crossCount` at 0, and the rising-edge loop does not exit on such a
pass. -/
theorem mainBody_zero_not_counted :
    (mainBody (flatWorld id) ⟨0, 0⟩
        ({ (configured : EnergyMonitor ℚ) with sampleV := 2047, filteredV := -1 })).2.lastFilteredV
      = -1 ∧
    (mainBody (flatWorld id) ⟨0, 0⟩
        ({ (configured : EnergyMonitor ℚ) with sampleV := 2047, filteredV := -1 })).2.filteredV
      = 0 ∧
    (mainBody (flatWorld id) ⟨0, 0⟩
        ({ (configured : EnergyMonitor ℚ) with sampleV := 2047, filteredV := -1 })).2.crossCount
      = 0 ∧
    (awaitRisingEdge (flatWorld id) 1 ⟨0, 0⟩
        ({ (configured : EnergyMonitor ℚ) with sampleV := 2047, filteredV := -1 })).isSome
      = false := by
  decide!

/-- C16 (as amended): a main-loop pass adds 1 to `crossCount` exactly when the filtered
voltage went from negative (`lastFilteredV < 0`) to strictly positive (`filteredV > 0`),
and leaves it unchanged otherwise; the rising-edge loop exits after a pass on exactly
the same condition.  A pass that ends with `filteredV` exactly 0 is not a crossing. -/
theorem crossing_condition (w : World) (c : Cursor) (s : EnergyMonitor α) (k : Nat) :
    (mainBody w c s).2.crossCount =
        (if 0 < (mainBody w c s).2.filteredV ∧ (mainBody w c s).2.lastFilteredV < 0
          then s.crossCount + 1 else s.crossCount) ∧
      awaitRisingEdge w (k + 1) c s =
        (if 0 < (edgeBody w c s).2.filteredV ∧ (edgeBody w c s).2.lastFilteredV < 0
          then some (edgeBody w c s)
          else awaitRisingEdge w k (edgeBody w c s).1 (edgeBody w c s).2) ∧
      ((mainBody w c s).2.crossCount = s.crossCount + 1 ↔
        0 < (mainBody w c s).2.filteredV ∧ (mainBody w c s).2.lastFilteredV < 0) := by
  have h1 : (mainBody w c s).2.crossCount =
      (if 0 < (mainBody w c s).2.filteredV ∧ (mainBody w c s).2.lastFilteredV < 0
        then s.crossCount + 1 else s.crossCount) := rfl
  refine ⟨h1, rfl, ?_⟩
  rw [h1]
  split
  · rename_i hc; exact ⟨fun _ => hc, fun _ => rfl⟩
  · rename_i hc
    exact ⟨fun h => absurd h (by omega), fun h => absurd h hc⟩

/-- C12 (counterexample): `calcIrms(1)` on an object that enters with `sumI = 1` and whose
only filtered current `f_1` is 0 returns `I_RATIO * sqrt(1)`, not `I_RATIO * sqrt(0)`. -/
theorem calcIrms_entry_sum_counts :
    (irmsLoop (flatWorld id) 1 ⟨0, 0⟩
        ({ (configured : EnergyMonitor ℚ) with sampleI := 2048, sumI := 1 })).2.filteredI = 0 ∧
    (calcIrms sqrtQ (flatWorld id) 1 ⟨0, 0⟩
        ({ (configured : EnergyMonitor ℚ) with sampleI := 2048, sumI := 1 })).2 =
      some (30 * ((3300 / 1000) / 4096) * sqrtQ 1) ∧
    (calcIrms sqrtQ (flatWorld id) 1 ⟨0, 0⟩
        ({ (configured : EnergyMonitor ℚ) with sampleI := 2048, sumI := 1 })).2 ≠
      some (30 * ((3300 / 1000) / 4096) * sqrtQ (0 ^ 2 / 1)) := by
  decide!

/-- C12 (as amended): for `N > 0`, `calcIrms(N)` makes exactly `N` passes, each reading
one raw sample on the current pin (`N` conversions, no clock query), and returns, and
stores in `Irms`, `I_RATIO * sqrt((sumI on entry + f_1^2 + ... + f_N^2) / N)` with
`I_RATIO = ICAL * 3.3 / 4096` and `f_k` the filtered current after the k-th sample (a NaN
when that mean is negative); when `sumI` is 0 on entry the value is
`I_RATIO * sqrt((f_1^2 + ... + f_N^2) / N)`. -/
theorem calcIrms_value (sqrt : α → α) (w : World) (N : Int) (c : Cursor)
    (s : EnergyMonitor α) (hN : 0 < N) :
    ((N.toNat : Int) = N) ∧
      (calcIrms sqrt w N c s).1.1.reads = c.reads + N.toNat ∧
      (calcIrms sqrt w N c s).1.1.ticks = c.ticks ∧
      (∀ k, k < N.toNat →
        (irmsLoop w (k + 1) c s).2.sampleI = w.analogRead (c.reads + k) s.inPinI) ∧
      (calcIrms sqrt w N c s).2 =
        (if (s.sumI + ∑ k ∈ Finset.range N.toNat, (irmsLoop w (k + 1) c s).2.filteredI ^ 2) /
            (N : α) < 0 then none
          else some (s.ICAL * 3.3 / 4096 * sqrt
            ((s.sumI + ∑ k ∈ Finset.range N.toNat, (irmsLoop w (k + 1) c s).2.filteredI ^ 2) /
              (N : α)))) ∧
      (calcIrms sqrt w N c s).1.2.Irms = (calcIrms sqrt w N c s).2 ∧
      (s.sumI = 0 → (calcIrms sqrt w N c s).2 =
        some (s.ICAL * 3.3 / 4096 * sqrt
          ((∑ k ∈ Finset.range N.toNat, (irmsLoop w (k + 1) c s).2.filteredI ^ 2) / (N : α)))) := by
  have hne : N ≠ 0 := ne_of_gt hN
  have hpos : (0 : α) < (N : α) := by exact_mod_cast hN
  have hpin : ∀ k, (irmsLoop w k c s).2.inPinI = s.inPinI := fun k =>
    irmsLoop_inv w (fun t => t.inPinI = s.inPinI) (fun _ _ h => h) k c s rfl
  have hcal : (irmsLoop w N.toNat c s).2.ICAL = s.ICAL :=
    irmsLoop_inv w (fun t => t.ICAL = s.ICAL) (fun _ _ h => h) N.toNat c s rfl
  have hratio : s.ICAL * ((3300 / 1000) / 4096) = s.ICAL * 3.3 / 4096 := by
    norm_num; ring
  have hval : (calcIrms sqrt w N c s).2 =
      (if (s.sumI + ∑ k ∈ Finset.range N.toNat, (irmsLoop w (k + 1) c s).2.filteredI ^ 2) /
          (N : α) < 0 then none
        else some (s.ICAL * 3.3 / 4096 * sqrt
          ((s.sumI + ∑ k ∈ Finset.range N.toNat, (irmsLoop w (k + 1) c s).2.filteredI ^ 2) /
            (N : α)))) := by
    simp only [calcIrms, divCount, hne, if_false, fsqrt, hcal, hratio, irmsLoop_sumI w c s]
    split <;> simp [fmul]
  refine ⟨Int.toNat_of_nonneg (le_of_lt hN), (irmsLoop_cursor w N.toNat c s).1,
    (irmsLoop_cursor w N.toNat c s).2, fun k _ => ?_, hval, rfl, fun h0 => ?_⟩
  · rw [irmsLoop_succ]
    show w.analogRead (irmsLoop w k c s).1.reads (irmsLoop w k c s).2.inPinI = _
    rw [(irmsLoop_cursor w k c s).1, hpin k]
  · rw [hval, h0, zero_add]
    have hsum : (0 : α) ≤ ∑ k ∈ Finset.range N.toNat, (irmsLoop w (k + 1) c s).2.filteredI ^ 2 :=
      Finset.sum_nonneg (fun _ _ => sq_nonneg _)
    rw [if_neg (not_lt.mpr (div_nonneg hsum (le_of_lt hpos)))]

/-- C12 (witness): `calcIrms(2)` on the configured object, whose `sumI` is 0. -/
theorem calcIrms_value_witness :
    (calcIrms sqrtQ edgeWorld 2 ⟨0, 0⟩ (configured : EnergyMonitor ℚ)).1.1.reads = 0 + 2 ∧
      (calcIrms sqrtQ edgeWorld 2 ⟨0, 0⟩ (configured : EnergyMonitor ℚ)).2 =
        some ((configured : EnergyMonitor ℚ).ICAL * 3.3 / 4096 * sqrtQ
          ((∑ k ∈ Finset.range (2 : Int).toNat,
            (irmsLoop edgeWorld (k + 1) ⟨0, 0⟩ (configured : EnergyMonitor ℚ)).2.filteredI ^ 2) /
              ((2 : Int) : ℚ))) :=
  ⟨(calcIrms_value sqrtQ edgeWorld 2 ⟨0, 0⟩ (configured : EnergyMonitor ℚ) (by decide)).2.1,
    (calcIrms_value sqrtQ edgeWorld 2 ⟨0, 0⟩ (configured : EnergyMonitor ℚ)
      (by decide)).2.2.2.2.2.2 rfl⟩

/-- C15 (counterexample): a one-sample cycle entered with `sumV = 1` leaves the main loop
with `sumV = 1 + filteredV^2`, not `filteredV^2`; and the same cycle entered with
`sumP = 1` instead of 0 reports another real power. -/
theorem calcVI_entry_sums_count :
    (accumulate edgeWorld 1 2 20 ⟨0, 0⟩
        ({ (configured : EnergyMonitor ℚ) with sumV := 1 })).map
        (fun r => (r.2.numberOfSamples, decide (r.2.sumV = r.2.filteredV ^ 2),
          decide (r.2.sumV = 1 + r.2.filteredV ^ 2))) = some (1, false, true) ∧
    (calcVI sqrtQ edgeWorld 1 2 20 ⟨0, 0⟩
        ({ (configured : EnergyMonitor ℚ) with sumP := 1 })).map (fun r => r.2.realPower) ≠
      (calcVI sqrtQ edgeWorld 1 2 20 ⟨0, 0⟩ (configured : EnergyMonitor ℚ)).map
        (fun r => r.2.realPower) := by
  decide!

/-- C15 (as amended): the sums used in the post-loop calculations of a returning cycle
with `n` samples are the values the sums hold on entry plus the per-sample terms of the
cycle: `sumV = entry sumV + sum of filteredV^2`, `sumI = entry sumI + sum of filteredI^2`,
`sumP = entry sumP + sum of (lastFilteredV + PHASECAL * (filteredV - lastFilteredV)) *
filteredI`.  `calcVI` does not zero the sums on entry; when they are 0 on entry, as on a
zero-initialised object and after every completed cycle, they are the sums over the
cycle's `n` samples. -/
theorem calcVI_sums (sqrt : α → α) (w : World) (crossings : Int) (timeout fuel : Nat)
    (c : Cursor) (s : EnergyMonitor α) (c4 : Cursor) (s5 : EnergyMonitor α)
    (h : calcVI sqrt w crossings timeout fuel c s = some (c4, s5)) :
    ∃ c2 s2 s4, synchronize w timeout fuel c s = some (c2, s2) ∧
      accumulate w crossings timeout fuel c s = some (c4, s4) ∧
      s5 = calibrate sqrt s4 ∧
      s4.sumV = s.sumV + ∑ k ∈ Finset.range s5.numberOfSamples,
        (mainIter w (k + 1) ({ c2 with ticks := c2.ticks + 1 }, s2)).2.filteredV ^ 2 ∧
      s4.sumI = s.sumI + ∑ k ∈ Finset.range s5.numberOfSamples,
        (mainIter w (k + 1) ({ c2 with ticks := c2.ticks + 1 }, s2)).2.filteredI ^ 2 ∧
      s4.sumP = s.sumP + ∑ k ∈ Finset.range s5.numberOfSamples,
        ((mainIter w (k + 1) ({ c2 with ticks := c2.ticks + 1 }, s2)).2.lastFilteredV +
          s.PHASECAL *
            ((mainIter w (k + 1) ({ c2 with ticks := c2.ticks + 1 }, s2)).2.filteredV -
              (mainIter w (k + 1) ({ c2 with ticks := c2.ticks + 1 }, s2)).2.lastFilteredV)) *
          (mainIter w (k + 1) ({ c2 with ticks := c2.ticks + 1 }, s2)).2.filteredI ∧
      (s.sumV = 0 → s.sumI = 0 → s.sumP = 0 →
        s4.sumV = ∑ k ∈ Finset.range s5.numberOfSamples,
          (mainIter w (k + 1) ({ c2 with ticks := c2.ticks + 1 }, s2)).2.filteredV ^ 2 ∧
        s4.sumI = ∑ k ∈ Finset.range s5.numberOfSamples,
          (mainIter w (k + 1) ({ c2 with ticks := c2.ticks + 1 }, s2)).2.filteredI ^ 2 ∧
        s4.sumP = ∑ k ∈ Finset.range s5.numberOfSamples,
          ((mainIter w (k + 1) ({ c2 with ticks := c2.ticks + 1 }, s2)).2.lastFilteredV +
            s.PHASECAL *
              ((mainIter w (k + 1) ({ c2 with ticks := c2.ticks + 1 }, s2)).2.filteredV -
                (mainIter w (k + 1)
                  ({ c2 with ticks := c2.ticks + 1 }, s2)).2.lastFilteredV)) *
            (mainIter w (k + 1) ({ c2 with ticks := c2.ticks + 1 }, s2)).2.filteredI) := by
  obtain ⟨c2, s2, s4, hsync, hmain, rfl⟩ := calcVI_eq_some sqrt w crossings timeout fuel c s c4 s5 h
  obtain ⟨n, hs4⟩ := mainLoop_eq_mainIter w crossings _ timeout fuel _ s2 c4 s4 hmain
  have h2 : s2.numberOfSamples = 0 := synchronize_numberOfSamples w timeout fuel c s c2 s2 hsync
  have hcount : (calibrate sqrt s4).numberOfSamples = n := by
    show s4.numberOfSamples = n
    rw [hs4, mainIter_numberOfSamples]
    show s2.numberOfSamples + n = n
    rw [h2]; omega
  have hacc : accumulate w crossings timeout fuel c s = some (c4, s4) := by
    simp only [accumulate, hsync, hmain]
  have hfr : s2.sumV = s.sumV ∧ s2.sumI = s.sumI ∧ s2.sumP = s.sumP ∧
      s2.PHASECAL = s.PHASECAL :=
    synchronize_inv w timeout
      (fun t => t.sumV = s.sumV ∧ t.sumI = s.sumI ∧ t.sumP = s.sumP ∧ t.PHASECAL = s.PHASECAL)
      (fun _ _ h => h) (fun _ _ h => h) fuel c s c2 s2 hsync ⟨rfl, rfl, rfl, rfl⟩
  obtain ⟨hV, hI, hP⟩ := mainIter_sums w ({ c2 with ticks := c2.ticks + 1 }, s2) n
  rw [← hs4] at hV hI hP
  simp only [hfr.1, hfr.2.1, hfr.2.2.1, hfr.2.2.2] at hV hI hP
  rw [hcount]
  refine ⟨c2, s2, s4, hsync, hacc, rfl, hV, hI, hP, fun h0V h0I h0P => ?_⟩
  rw [hV, hI, hP, h0V, h0I, h0P, zero_add, zero_add, zero_add]
  exact ⟨rfl, rfl, rfl⟩

/-- C15 (witness): the sums of a two-sample cycle of the configured object, entered
with zero sums. -/
theorem calcVI_sums_witness :
    ∃ r, ∃ p0 : Cursor × EnergyMonitor ℚ, ∃ s4 : EnergyMonitor ℚ,
      calcVI sqrtQ edgeWorld 1 3 20 ⟨0, 0⟩ (configured : EnergyMonitor ℚ) = some r ∧
      r.2.numberOfSamples = 2 ∧
      s4.sumV = ∑ k ∈ Finset.range 2, (mainIter edgeWorld (k + 1) p0).2.filteredV ^ 2 := by
  have hs : (calcVI sqrtQ edgeWorld 1 3 20 ⟨0, 0⟩ (configured : EnergyMonitor ℚ)).map
      (fun p => p.2.numberOfSamples) = some 2 := by decide!
  obtain ⟨⟨c4, s5⟩, h5⟩ := Option.isSome_iff_exists.mp
    (show (calcVI sqrtQ edgeWorld 1 3 20 ⟨0, 0⟩ (configured : EnergyMonitor ℚ)).isSome = true by
      decide!)
  have hv : s5.numberOfSamples = 2 :=
    of_map_eq_some _ (fun p : Cursor × EnergyMonitor ℚ => p.2.numberOfSamples) _ (c4, s5) hs h5
  obtain ⟨c2, s2, s4, -, -, -, -, -, -, hzero⟩ :=
    calcVI_sums sqrtQ edgeWorld 1 3 20 ⟨0, 0⟩ configured c4 s5 h5
  have hV := (hzero rfl rfl rfl).1
  rw [hv] at hV
  exact ⟨(c4, s5), _, s4, h5, hv, hV⟩

/-- C17 (counterexample): the compressed value of a filtered voltage of 2048, and of a
filtered current above 1024 in a cycle of the configured object, is not the byte 255:
the conversion is applied to an out-of-range value and its result is indeterminate. -/
theorem toChar_not_clamped :
    toChar (((2048 : ℚ) + 2048) / 16) = none ∧
    toChar (((2048 : ℚ) + 2048) / 16) ≠ some 255 ∧
    (calcVI sqrtQ edgeWorld 1 2 20 ⟨0, 0⟩ (configured : EnergyMonitor ℚ)).map
        (fun p => (p.2.numberOfSamples, decide (1024 ≤ p.2.filteredI), p.2.Iwaveform 1)) =
      some (1, true, none) := by
  decide!

/-- C17 (as amended): the byte stored in `Vwaveform` is `char((filteredV + 2048) / 16)`
and the byte stored in `Iwaveform` is `char((filteredI + 1024) / 8)`.  When the value `x`
converted lies in the range of a byte (`-1 < x < 256`) the result is `x` truncated toward
zero, a number between 0 and 255; when it lies outside, the code does nothing to clamp
it and the result of the conversion is indeterminate. -/
theorem toChar_truncates (x : α) :
    (-1 < x → x < 256 → ∃ b : Nat, toChar x = some b ∧ b ≤ 255 ∧
        (0 ≤ x → (b : α) ≤ x ∧ x < (b : α) + 1) ∧ (x < 0 → b = 0)) ∧
      (¬ (-1 < x ∧ x < 256) → toChar x = none) ∧
      (∀ (w : World) (c : Cursor) (s : EnergyMonitor α)
        (hk : (s.numberOfSamples + 1) % 128 < 128),
        (mainBody w c s).2.Vwaveform ⟨(s.numberOfSamples + 1) % 128, hk⟩ =
            toChar (((mainBody w c s).2.filteredV + 2048) / 16) ∧
          (mainBody w c s).2.Iwaveform ⟨(s.numberOfSamples + 1) % 128, hk⟩ =
            toChar (((mainBody w c s).2.filteredI + 1024) / 8)) := by
  refine ⟨fun h1 h2 => ?_, fun h => ?_, fun w c s hk => ?_⟩
  · by_cases hx : x < 0
    · exact ⟨0, by simp [toChar, h1, h2, hx], by omega,
        fun h0 => absurd hx (not_lt.mpr h0), fun _ => rfl⟩
    · have h0 : 0 ≤ x := not_lt.mp hx
      have hfl : 0 ≤ ⌊x⌋ := Int.floor_nonneg.mpr h0
      have hcast : ((Int.toNat ⌊x⌋ : Nat) : α) = (⌊x⌋ : α) := by
        have : ((Int.toNat ⌊x⌋ : Nat) : Int) = ⌊x⌋ := Int.toNat_of_nonneg hfl
        exact_mod_cast congrArg (fun z : Int => (z : α)) this
      have hlt : ⌊x⌋ < 256 := by
        have : (⌊x⌋ : α) < ((256 : Int) : α) := lt_of_le_of_lt (Int.floor_le x) (by exact_mod_cast h2)
        exact_mod_cast this
      refine ⟨Int.toNat ⌊x⌋, by simp [toChar, h1, h2, hx], by omega, fun _ => ?_,
        fun h => absurd h hx⟩
      rw [hcast]
      exact ⟨Int.floor_le x, Int.lt_floor_add_one x⟩
  · simp [toChar, h]
  · exact ⟨writeSlot_same _ _ _ hk, writeSlot_same _ _ _ hk⟩

/-- C17 (witness): the conversion of 127.48, the compressed first sample of a cycle of
the configured object in `edgeWorld`. -/
theorem toChar_truncates_witness :
    ∃ b : Nat, toChar ((12748 : ℚ) / 100) = some b ∧ b ≤ 255 ∧
      ((b : ℚ) ≤ 12748 / 100 ∧ (12748 : ℚ) / 100 < (b : ℚ) + 1) := by
  obtain ⟨b, hb, hle, hbounds, -⟩ :=
    (toChar_truncates ((12748 : ℚ) / 100)).1 (by norm_num) (by norm_num)
  exact ⟨b, hb, hle, hbounds (by norm_num)⟩

/-- C18 (counterexample): adding 40 to the stored last raw voltage and to every reading
of the voltage pin changes the real power of a cycle of the configured object in
`seekWorld`: the seek-near-zero loop tests the raw voltage and exits one reading
later. -/
theorem calcVI_voltage_offset_changes_result :
    (calcVI sqrtQ seekWorld 1 1000 20 ⟨0, 0⟩ (configured : EnergyMonitor ℚ)).isSome = true ∧
    (calcVI sqrtQ (offsetWorld (fun p => if p = 0 then 40 else 0) seekWorld) 1 1000 20 ⟨0, 0⟩
        (offsetState (fun p => if p = 0 then 40 else 0)
          (configured : EnergyMonitor ℚ))).isSome = true ∧
    (calcVI sqrtQ (offsetWorld (fun p => if p = 0 then 40 else 0) seekWorld) 1 1000 20 ⟨0, 0⟩
        (offsetState (fun p => if p = 0 then 40 else 0)
          (configured : EnergyMonitor ℚ))).map (fun r => r.2.realPower) ≠
      (calcVI sqrtQ seekWorld 1 1000 20 ⟨0, 0⟩ (configured : EnergyMonitor ℚ)).map
        (fun r => r.2.realPower) := by
  decide!

/-- C18 (as amended): over exact arithmetic, adding a constant offset to the stored last
raw sample of a channel and to every later reading of its pin leaves every filtered
value of the rising-edge loop, the main loop and the `calcIrms` loop unchanged, and so
the value `calcIrms` returns; it leaves the Result and sample count of `calcVI`
unchanged when the offset moves no raw voltage reading into or out of the band
`2018 < v < 2078` the seek-near-zero loop tests, in particular when the voltage pin has
no offset.  For a raw input that stays equal to the stored last raw sample the filtered
value after `m` passes is `0.996^m` times its initial value; its magnitude never
increases and falls below every positive bound. -/
theorem filter_offset_invariance (off : Int → Nat) (sqrt : α → α) (w : World) (c : Cursor)
    (s : EnergyMonitor α) :
    (∀ n : Nat,
      (mainIter (offsetWorld off w) n (c, offsetState off s)).2.filteredV =
          (mainIter w n (c, s)).2.filteredV ∧
        (mainIter (offsetWorld off w) n (c, offsetState off s)).2.filteredI =
          (mainIter w n (c, s)).2.filteredI ∧
        (irmsLoop (offsetWorld off w) n c (offsetState off s)).2.filteredI =
          (irmsLoop w n c s).2.filteredI) ∧
      ((edgeBody (offsetWorld off w) c (offsetState off s)).2.filteredV =
          (edgeBody w c s).2.filteredV ∧
        (edgeBody (offsetWorld off w) c (offsetState off s)).2.filteredI =
          (edgeBody w c s).2.filteredI) ∧
      (∀ N : Int, (calcIrms sqrt (offsetWorld off w) N c (offsetState off s)).2 =
        (calcIrms sqrt w N c s).2) ∧
      (∀ (crossings : Int) (timeout fuel : Nat),
        (∀ k, (w.analogRead k s.inPinV + off s.inPinV < 2078 ∧
            w.analogRead k s.inPinV + off s.inPinV > 2018) ↔
          (w.analogRead k s.inPinV < 2078 ∧ w.analogRead k s.inPinV > 2018)) →
        (calcVI sqrt (offsetWorld off w) crossings timeout fuel c (offsetState off s)).map
            (fun r => resultOf r.2) =
          (calcVI sqrt w crossings timeout fuel c s).map (fun r => resultOf r.2)) ∧
      (∀ (crossings : Int) (timeout fuel : Nat), off s.inPinV = 0 →
        (calcVI sqrt (offsetWorld off w) crossings timeout fuel c (offsetState off s)).map
            (fun r => resultOf r.2) =
          (calcVI sqrt w crossings timeout fuel c s).map (fun r => resultOf r.2)) ∧
      ((∀ k, w.analogRead k s.inPinV = s.sampleV) →
        (∀ m : Nat, (mainIter w m (c, s)).2.filteredV = 0.996 ^ m * s.filteredV ∧
          |(mainIter w (m + 1) (c, s)).2.filteredV| ≤ |(mainIter w m (c, s)).2.filteredV|) ∧
        (∀ ε : α, 0 < ε → ∃ M : Nat, ∀ m, M ≤ m → |(mainIter w m (c, s)).2.filteredV| < ε)) ∧
      ((∀ k, w.analogRead k s.inPinI = s.sampleI) →
        (∀ m : Nat, (irmsLoop w m c s).2.filteredI = 0.996 ^ m * s.filteredI ∧
          |(irmsLoop w (m + 1) c s).2.filteredI| ≤ |(irmsLoop w m c s).2.filteredI|) ∧
        (∀ ε : α, 0 < ε → ∃ M : Nat, ∀ m, M ≤ m → |(irmsLoop w m c s).2.filteredI| < ε)) := by
  have hsh := shifted_offsetState off s
  refine ⟨fun n => ?_, ?_, fun N => ?_, fun crossings timeout fuel hband => ?_,
    fun crossings timeout fuel h0 => ?_, fun hconst => ?_, fun hconst => ?_⟩
  · obtain ⟨-, hm⟩ := mainIter_shifted off w c s _ hsh n
    obtain ⟨-, hi⟩ := irmsLoop_shifted off w n c s _ hsh
    exact ⟨hm.2.2.2.1.symm, hm.2.2.2.2.1.symm, hi.2.2.2.2.1.symm⟩
  · obtain ⟨-, he, -⟩ := edgeBody_shifted off w c s _ hsh
    exact ⟨he.2.2.2.1.symm, he.2.2.2.2.1.symm⟩
  · obtain ⟨-, hi⟩ := irmsLoop_shifted off w N.toNat c s _ hsh
    have hcal : (irmsLoop w N.toNat c s).2.ICAL =
        (irmsLoop (offsetWorld off w) N.toNat c (offsetState off s)).2.ICAL := hi.1.2.2.2.1
    have hsum : (irmsLoop w N.toNat c s).2.sumI =
        (irmsLoop (offsetWorld off w) N.toNat c (offsetState off s)).2.sumI := hi.2.2.2.2.2.2.1
    simp only [calcIrms, hcal, hsum]
  · exact calcVI_shifted off sqrt w crossings timeout fuel c s _ hsh hband
  · exact calcVI_shifted off sqrt w crossings timeout fuel c s _ hsh
      (fun k => by rw [h0, Nat.add_zero])
  · have hdec := decay_to_zero s.filteredV
    have hval : ∀ m, (mainIter w m (c, s)).2.filteredV = 0.996 ^ m * s.filteredV :=
      fun m => (mainIter_constant_V w (c, s) hconst m).1
    refine ⟨fun m => ⟨hval m, ?_⟩, fun ε hε => ?_⟩
    · rw [hval, hval]; exact hdec.1 m
    · obtain ⟨M, hM⟩ := hdec.2 ε hε
      exact ⟨M, fun m hm => by rw [hval]; exact hM m hm⟩
  · have hdec := decay_to_zero s.filteredI
    have hval : ∀ m, (irmsLoop w m c s).2.filteredI = 0.996 ^ m * s.filteredI :=
      fun m => (irmsLoop_constant w c s hconst m).1
    refine ⟨fun m => ⟨hval m, ?_⟩, fun ε hε => ?_⟩
    · rw [hval, hval]; exact hdec.1 m
    · obtain ⟨M, hM⟩ := hdec.2 ε hε
      exact ⟨M, fun m hm => by rw [hval]; exact hM m hm⟩

/-- C18 (witness): an offset of 40 on the current pin 1 leaves the Result of a cycle of
the configured object unchanged, and under a constant input of 2048 a filtered voltage
of 100 is `0.996^3 * 100` after three main-loop iterations. -/
theorem filter_offset_invariance_witness :
    (calcVI sqrtQ (offsetWorld (fun p => if p = 1 then 40 else 0) edgeWorld) 1 3 20 ⟨0, 0⟩
        (offsetState (fun p => if p = 1 then 40 else 0)
          (configured : EnergyMonitor ℚ))).map (fun r => resultOf r.2) =
      (calcVI sqrtQ edgeWorld 1 3 20 ⟨0, 0⟩ (configured : EnergyMonitor ℚ)).map
        (fun r => resultOf r.2) ∧
    (mainIter (flatWorld id) 3 (⟨0, 0⟩,
        ({ (configured : EnergyMonitor ℚ) with sampleV := 2048, filteredV := 100 }))).2.filteredV
      = 0.996 ^ 3 * 100 :=
  ⟨(filter_offset_invariance (fun p => if p = 1 then 40 else 0) sqrtQ edgeWorld ⟨0, 0⟩
      (configured : EnergyMonitor ℚ)).2.2.2.2.1 1 3 20 (by decide),
    (((filter_offset_invariance (fun _ => 0) sqrtQ (flatWorld id) ⟨0, 0⟩
      ({ (configured : EnergyMonitor ℚ) with sampleV := 2048, filteredV := 100 })).2.2.2.2.2.1
        (fun _ => rfl)).1 3).1⟩

/-- C19: over exact arithmetic with an exact square root, a returning cycle entered
with zero sums and `PHASECAL = 1` that took `n > 0` samples has finite real and apparent
power with `|realPower| <= |apparentPower|`, and when the apparent power is not 0 its
power factor is `realPower / apparentPower` and lies between -1 and 1.  With
`PHASECAL = 3` the bound fails: a cycle of the object `steady` in `steadyWorld` reports
a power factor of 5. -/
theorem powerFactor_bound :
    (∀ sqrt : α → α, (∀ x, 0 ≤ x → 0 ≤ sqrt x ∧ sqrt x * sqrt x = x) →
      ∀ (w : World) (crossings : Int) (timeout fuel : Nat) (c : Cursor)
        (s : EnergyMonitor α) (c4 : Cursor) (s5 : EnergyMonitor α),
        calcVI sqrt w crossings timeout fuel c s = some (c4, s5) →
        s.sumV = 0 → s.sumI = 0 → s.sumP = 0 → s.PHASECAL = 1 → 0 < s5.numberOfSamples →
        ∃ rp ap, s5.realPower = some rp ∧ s5.apparentPower = some ap ∧ |rp| ≤ |ap| ∧
          (ap ≠ 0 → ∃ pf, s5.powerFactor = some pf ∧ pf = rp / ap ∧ -1 ≤ pf ∧ pf ≤ 1)) ∧
      (∃ (s : EnergyMonitor ℝ) (c4 : Cursor) (s5 : EnergyMonitor ℝ) (rp ap : ℝ),
        s.PHASECAL ≠ 1 ∧ s.sumV = 0 ∧ s.sumI = 0 ∧ s.sumP = 0 ∧
        calcVI Real.sqrt steadyWorld 1 10 3 ⟨0, 0⟩ s = some (c4, s5) ∧
        0 < s5.numberOfSamples ∧ s5.realPower = some rp ∧ s5.apparentPower = some ap ∧
        ap ≠ 0 ∧ |ap| < |rp| ∧ s5.powerFactor = some 5) := by
  constructor
  · intro sqrt hs w crossings timeout fuel c s c4 s5 h h0V h0I h0P hph hn
    obtain ⟨c2, s2, s4, hsync, hmain, rfl⟩ :=
      calcVI_eq_some sqrt w crossings timeout fuel c s c4 s5 h
    obtain ⟨n, hs4⟩ := mainLoop_eq_mainIter w crossings _ timeout fuel _ s2 c4 s4 hmain
    have hfr : s2.sumV = s.sumV ∧ s2.sumI = s.sumI ∧ s2.sumP = s.sumP ∧
        s2.PHASECAL = s.PHASECAL :=
      synchronize_inv w timeout
        (fun t => t.sumV = s.sumV ∧ t.sumI = s.sumI ∧ t.sumP = s.sumP ∧
          t.PHASECAL = s.PHASECAL)
        (fun _ _ h => h) (fun _ _ h => h) fuel c s c2 s2 hsync ⟨rfl, rfl, rfl, rfl⟩
    obtain ⟨hV, hI, hP⟩ := mainIter_sums w ({ c2 with ticks := c2.ticks + 1 }, s2) n
    rw [← hs4] at hV hI hP
    simp only [hfr.1, hfr.2.1, hfr.2.2.1, hfr.2.2.2, h0V, h0I, h0P, hph, zero_add] at hV hI hP
    have hP1 : s4.sumP = ∑ k ∈ Finset.range n,
        (mainIter w (k + 1) ({ c2 with ticks := c2.ticks + 1 }, s2)).2.filteredV *
          (mainIter w (k + 1) ({ c2 with ticks := c2.ticks + 1 }, s2)).2.filteredI := by
      rw [hP]
      exact Finset.sum_congr rfl (fun k _ => by ring)
    have hcs : s4.sumP ^ 2 ≤ s4.sumV * s4.sumI := by
      rw [hP1, hV, hI]
      exact Finset.sum_mul_sq_le_sq_mul_sq _ _ _
    have hV0 : 0 ≤ s4.sumV := by rw [hV]; exact Finset.sum_nonneg (fun _ _ => sq_nonneg _)
    have hI0 : 0 ≤ s4.sumI := by rw [hI]; exact Finset.sum_nonneg (fun _ _ => sq_nonneg _)
    have hn4 : 0 < s4.numberOfSamples := hn
    have hpos : (0 : α) < (s4.numberOfSamples : α) := by exact_mod_cast hn4
    obtain ⟨eP, eA, eF⟩ := calibrate_finite sqrt s4 hn4 hV0 hI0
    have hsa := (hs _ (div_nonneg hV0 (le_of_lt hpos))).2
    have hsb := (hs _ (div_nonneg hI0 (le_of_lt hpos))).2
    have hbound := realPower_le_apparentPower (s4.VCAL * ((3300 / 1000) / 4096))
      (s4.ICAL * ((3300 / 1000) / 4096)) s4.sumP s4.sumV s4.sumI (s4.numberOfSamples : α)
      _ _ hpos hsa hsb hcs
    refine ⟨_, _, eP, eA, hbound, fun hap => ?_⟩
    rw [eF, eP, eA]
    simp only [fdiv, if_neg hap]
    refine ⟨_, rfl, rfl, ?_⟩
    have habs : |s4.VCAL * ((3300 / 1000) / 4096) * (s4.ICAL * ((3300 / 1000) / 4096)) *
        s4.sumP / (s4.numberOfSamples : α) /
        (s4.VCAL * ((3300 / 1000) / 4096) * sqrt (s4.sumV / (s4.numberOfSamples : α)) *
          (s4.ICAL * ((3300 / 1000) / 4096) * sqrt (s4.sumI / (s4.numberOfSamples : α))))| ≤ 1 := by
      rw [abs_div]
      exact (div_le_one (abs_pos.mpr hap)).mpr hbound
    exact abs_le.mp habs
  · have hev := steady_cycle_phasecal3
    cases hc : calcVI Real.sqrt steadyWorld 1 10 3 ⟨0, 0⟩
        ({ (steady : EnergyMonitor ℝ) with PHASECAL := 3 }) with
    | none => rw [hc] at hev; simp at hev
    | some r =>
      rw [hc] at hev
      simp only [Option.map_some', Option.some.injEq, Prod.mk.injEq] at hev
      obtain ⟨hrp, hap, hpf, hns⟩ := hev
      refine ⟨{ (steady : EnergyMonitor ℝ) with PHASECAL := 3 }, r.1, r.2, _, _, ?_, rfl, rfl,
        rfl, hc, by rw [hns]; norm_num, hrp, hap, by norm_num, ?_, hpf⟩
      · show (3 : ℝ) ≠ 1
        norm_num
      · rw [abs_of_pos (by norm_num), abs_of_pos (by norm_num)]
        norm_num

/-- C19 (witness): the bound at a cycle of `steady`, whose `PHASECAL` is 1, in
`steadyWorld`, over the reals with the real square root. -/
theorem powerFactor_bound_witness :
    ∃ r rp ap, calcVI Real.sqrt steadyWorld 1 10 3 ⟨0, 0⟩ (steady : EnergyMonitor ℝ) = some r ∧
      r.2.realPower = some rp ∧ r.2.apparentPower = some ap ∧ |rp| ≤ |ap| := by
  have hs := steady_cycle_samples
  cases hc : calcVI Real.sqrt steadyWorld 1 10 3 ⟨0, 0⟩ (steady : EnergyMonitor ℝ) with
  | none => rw [hc] at hs; simp at hs
  | some r =>
    rw [hc] at hs
    simp only [Option.map_some', Option.some.injEq] at hs
    obtain ⟨rp, ap, h1, h2, h3, -⟩ := (@powerFactor_bound ℝ _ _).1 Real.sqrt
      (fun x hx => ⟨Real.sqrt_nonneg x, Real.mul_self_sqrt hx⟩) steadyWorld 1 10 3 ⟨0, 0⟩
      steady r.1 r.2 hc rfl rfl rfl rfl (by rw [hs]; norm_num)
    exact ⟨r, rp, ap, rfl, h1, h2, h3⟩

end Claims

end Semonlib
